import Mathlib

/-!
Verification of the crafting-cost resolution and profit-simulation engine of
the Arbitrageur repository (src/arbitrageur/crafting.py, listings.py,
items.py, prices.py, recipes.py) against its natural-language specification.

The Python code is shallowly embedded: mutable objects become explicit
state passing (a method that mutates its receiver returns the new receiver),
Python `int` becomes `Int`, `fractions.Fraction` becomes `ℚ`, Python dicts
become association lists, and runtime errors (assert failures, attribute
errors on `None`, unpacking `None`) become an explicit error type.  Python's
recursion limit is modelled by a fuel parameter whose exhaustion is the
`recursionError` outcome, and the unbounded `while True` loop of
`calculate_crafting_profit` is modelled with a loop bound whose exhaustion is
the `loopLimit` outcome (the code itself has no such bound; `loopLimit` is
how a non-terminating run shows up in the model).
-/

namespace Arbitrageur

/-- The abnormal outcomes of the embedded Python code.
`assertionError`: a failed `assert`;
`attributeError`: attribute access on `None` (e.g. `lowest_cost.source` when
`select_lowest_cost` returned `None`);
`typeError`: unpacking `None` into a tuple (`buy_price, buy_listings = ...buy(...)`
when `buy` returned `None`);
`recursionError`: the recursion-depth fuel ran out;
`loopLimit`: the loop bound of the profit-loop model ran out. -/
inductive PyErr where
  | assertionError
  | attributeError
  | typeError
  | recursionError
  | loopLimit
deriving Repr, DecidableEq

/-- Association-list lookup, modelling `dict.get` / `in` on Python dicts
keyed by item id. -/
def lookupA {α : Type} : List (Nat × α) → Nat → Option α
  | [], _ => none
  | (k, v) :: rest, key => if k = key then some v else lookupA rest key

/-- Association-list update in place (the key is expected to be present;
appends at the end otherwise, like a Python dict assignment). -/
def setA {α : Type} : List (Nat × α) → Nat → α → List (Nat × α)
  | [], key, v => [(key, v)]
  | (k, w) :: rest, key, v =>
      if k = key then (k, v) :: rest else (k, w) :: setA rest key v

/-- One price level of an order-book ladder (listings.py `Listing`). -/
structure Listing where
  listings : Int
  unit_price : Int
  quantity : Int
deriving Repr, DecidableEq

/-- Per-item order book entry (listings.py `ItemListings`): one buy ladder and
one sell ladder.  Sells are sorted in descending price (cheapest last), buys
in ascending price (best last), as the source comments state. -/
structure ItemListings where
  id : Nat
  buys : List Listing
  sells : List Listing
deriving Repr, DecidableEq

/-- A price-to-quantity breakdown, modelling the Python `Dict[int, int]`
accumulated by `ItemListings.buy` (insertion ordered). -/
abbrev Breakdown := List (Int × Int)

/-- `listings[unit_price] += quantity` with creation on first use, the dict
update pattern of `ItemListings.buy` and `PurchasedIngredient.buy`. -/
def bumpBreakdown : Breakdown → Int → Int → Breakdown
  | [], price, q => [(price, q)]
  | (p, c) :: rest, price, q =>
      if p = price then (p, c + q) :: rest else (p, c) :: bumpBreakdown rest price q

/-- The loop body of `ItemListings.buy` (listings.py lines 26-43), acting on
the reversed sell ladder (`rev` lists the cheapest level first, so Python's
`self.sells[-1]` is `rev`'s head).  One unit is taken per step; an exhausted
level (`quantity == 0`) is popped.  Failure (`return None`) keeps the
partial consumption, as in the source, so the ladder is returned in every
case. -/
def buyGo : Nat → List Listing → Int → Breakdown → Option (Int × Breakdown) × List Listing
  | 0, rev, cost, bd => (some (cost, bd), rev)
  | _ + 1, [], _, _ => (none, [])
  | n + 1, l :: rest, cost, bd =>
      let l2 : Listing := { l with quantity := l.quantity - 1 }
      let cost2 := cost + l.unit_price
      let bd2 := bumpBreakdown bd l.unit_price 1
      let rev2 := if l2.quantity = 0 then rest else l2 :: rest
      buyGo n rev2 cost2 bd2

/-- listings.py `ItemListings.buy`: consume `count` units from the cheap end
of the sell ladder, returning the total cost with a price breakdown, or
`none` when the ladder runs out first (the partial consumption persists, as
in the source).  Python iterates `while count > 0` on an `int`; every call
site passes `ceil` of a non-negative fraction, so a `Nat` count is the
faithful embedding. -/
def ItemListings.buy (self : ItemListings) (count : Nat) :
    Option (Int × Breakdown) × ItemListings :=
  let r := buyGo count self.sells.reverse 0 []
  (r.1, { self with sells := r.2.reverse })

/-- listings.py `ItemListings.sell`: take one unit from the best (last) buy
order, returning its raw unit price, or `none` when the buy ladder is empty. -/
def ItemListings.sell (self : ItemListings) : Option Int × ItemListings :=
  match self.buys.getLast? with
  | none => (none, self)
  | some l =>
      let l2 : Listing := { l with quantity := l.quantity - 1 }
      let buys2 := if l2.quantity = 0 then self.buys.dropLast
                   else self.buys.dropLast ++ [l2]
      (some l.unit_price, { self with buys := buys2 })

/-- The loop of `ItemListings.lowest_sell_offer` (listings.py lines 62-71)
over the reversed sell ladder (cheapest level first), accumulating the cost
of the cheapest `count` units without consuming them. -/
def lowestSellOfferGo : List Listing → Int → Int → Option Int
  | [], count, cost => if count > 0 then none else some cost
  | l :: rest, count, cost =>
      if l.quantity < count then
        let count2 := count - l.quantity
        let cost2 := cost + l.unit_price * l.quantity
        if count2 = 0 then some cost2 else lowestSellOfferGo rest count2 cost2
      else
        some (cost + l.unit_price * count)

/-- listings.py `ItemListings.lowest_sell_offer`: read-only sum of the
cheapest `count` units, `none` if fewer than `count` are listed.  Rendered in
state-transformer form (the method is called on an object aliased inside
`tp_listings_map`); its body performs no write, so the returned object is the
receiver. -/
def ItemListings.lowest_sell_offer (self : ItemListings) (count : Int) :
    Option Int × ItemListings :=
  (lowestSellOfferGo self.sells.reverse count 0, self)

/-- items.py `Item`, restricted to the fields the embedded functions read. -/
structure Item where
  id : Nat
  name : String
  vendor_value : Int
  flags : List String
deriving Repr, DecidableEq

/-- items.py `is_common_ascended_material`. -/
def is_common_ascended_material (item : Item) : Bool :=
  item.name = "Empyreal Fragment" ||
  item.name = "Dragonite Ore" ||
  item.name = "Pile of Bloodstone Dust"

/-- items.py `vendor_price`: the deterministic vendor price table. -/
def vendor_price (item : Item) : Option Int :=
  let name := item.name
  if name = "Thermocatalytic Reagent" ||
     name = "Spool of Jute Thread" ||
     name = "Spool of Wool Thread" ||
     name = "Spool of Cotton Thread" ||
     name = "Spool of Linen Thread" ||
     name = "Spool of Silk Thread" ||
     name = "Spool of Gossamer Thread" ||
     (name.endsWith "Rune of Holding" && !name.startsWith "Supreme") ||
     name = "Lump of Tin" ||
     name = "Lump of Coal" ||
     name = "Lump of Primordium" ||
     name = "Jar of Vinegar" ||
     name = "Packet of Baking Powder" ||
     name = "Jar of Vegetable Oil" ||
     name = "Packet of Salt" ||
     name = "Bag of Sugar" ||
     name = "Jug of Water" ||
     name = "Bag of Starch" ||
     name = "Bag of Flour" ||
     name = "Bottle of Soy Sauce" ||
     name = "Milling Basin" ||
     name = "Crystalline Bottle" ||
     name = "Bag of Mortar" ||
     name = "Essence of Elegance" then
    if item.vendor_value > 0 then some (item.vendor_value * 8) else none
  else if name = "Pile of Compost Starter" then some 150
  else if name = "Pile of Powdered Gelatin Mix" then some 200
  else if name = "Smell-Enhancing Culture" then some 40000
  else if is_common_ascended_material item then some 0
  else none

/-- recipes.py `RecipeIngredient`. -/
structure RecipeIngredient where
  item_id : Nat
  count : Int
deriving Repr, DecidableEq

/-- recipes.py `Recipe`, restricted to the fields the embedded functions
read.  `output_item_count` is `Optional[int]` in the source
(`calculate_precise_min_crafting_cost` checks it for `None`). -/
structure Recipe where
  id : Nat
  output_item_id : Nat
  output_item_count : Option Int
  ingredients : List RecipeIngredient
deriving Repr, DecidableEq

/-- recipes.py `is_time_gated`: the static allow-list of time-gated recipe
output ids. -/
def is_time_gated (recipe : Recipe) : Bool :=
  recipe.output_item_id = 46740 ||
  recipe.output_item_id = 46742 ||
  recipe.output_item_id = 46744 ||
  recipe.output_item_id = 46745 ||
  recipe.output_item_id = 66913 ||
  recipe.output_item_id = 66917 ||
  recipe.output_item_id = 66923 ||
  recipe.output_item_id = 66993 ||
  recipe.output_item_id = 67015 ||
  recipe.output_item_id = 67377 ||
  recipe.output_item_id = 79726 ||
  recipe.output_item_id = 79763 ||
  recipe.output_item_id = 79790 ||
  recipe.output_item_id = 79795 ||
  recipe.output_item_id = 79817

/-- prices.py `PriceInfo`. -/
structure PriceInfo where
  unit_price : Int
  quantity : Int
deriving Repr, DecidableEq

/-- prices.py `Price`. -/
structure Price where
  id : Nat
  buys : PriceInfo
  sells : PriceInfo
deriving Repr, DecidableEq

/-- prices.py `effective_buy_price`: `floor(unit_price * (1.0 - 0.15))`.
The source computes with a float commission; the model computes the exact
`⌊unit_price * 85 / 100⌋` (floor division), which agrees with the float
computation on the whole range of realistic prices. -/
def effective_buy_price (unit_price : Int) : Int :=
  Int.fdiv (unit_price * 85) 100

/-- prices.py `effective_sell_price`: `floor(unit_price / (1.0 - 0.15))`,
modelled exactly as `⌊unit_price * 100 / 85⌋`. -/
def effective_sell_price (unit_price : Int) : Int :=
  Int.fdiv (unit_price * 100) 85

/-- crafting.py `Source`. -/
inductive Source where
  | Crafting
  | TradingPost
  | Vendor
deriving Repr, DecidableEq

/-- crafting.py `CraftingCost`.  `cost` is typed `int` in the source and the
only construction site (`select_lowest_cost`) always supplies an `int`, so it
is an `Int` here; the defensively dead `ingredient_cost.cost is None` branch
of the resolver (crafting.py line 138) is thereby unrepresentable.  The flag
fields are typed `Optional[bool]` but every construction passes a real bool. -/
structure CraftingCost where
  cost : Int
  source : Source
  time_gated : Bool
  needs_ascended : Bool
deriving Repr, DecidableEq

/-- crafting.py `PurchasedIngredient` (the Purchase Ledger entry). -/
structure PurchasedIngredient where
  count : ℚ
  cost : Int
  listings : Breakdown
deriving Repr, DecidableEq

/-- crafting.py `PurchasedIngredient.buy`: accumulate a further purchase into
the ledger entry, merging the price breakdown. -/
def PurchasedIngredient.buy (self : PurchasedIngredient) (count : ℚ) (cost : Int)
    (listings : Breakdown) : PurchasedIngredient :=
  { count := self.count + count,
    cost := self.cost + cost,
    listings := listings.foldl (fun acc pq => bumpBreakdown acc pq.1 pq.2) self.listings }

/-- crafting.py `ProfitableItem`. -/
structure ProfitableItem where
  id : Nat
  crafting_cost : Int
  crafting_steps : ℚ
  count : Int
  profit : Int
  profitability_threshold : Int
  time_gated : Bool
  needs_ascended : Bool
  purchased_ingredients : List (Nat × PurchasedIngredient)
deriving Repr, DecidableEq

/-- crafting.py `div_int_ceil`: `(x + y - 1) // y` with Python floor
division. -/
def div_int_ceil (x : Int) (y : Int) : Int :=
  Int.fdiv (x + y - 1) y

/-- crafting.py `inner_min`: minimum of two optional values, `none` only when
both are `none`. -/
def inner_min (left : Option Int) (right : Option Int) : Option Int :=
  match left with
  | none => right
  | some l =>
      match right with
      | none => some l
      | some r => some (min l r)

/-- crafting.py `select_lowest_cost`: minimum of the three optional costs;
`None` when all three are unavailable; the source is `TradingPost` when the
trading-post cost attains the minimum, else `Crafting` when the crafting cost
attains it, else `Vendor`. -/
def select_lowest_cost (crafting_cost : Option Int) (tp_cost : Option Int)
    (vendor_cost : Option Int) (time_gated : Bool) (needs_ascended : Bool) :
    Option CraftingCost :=
  match inner_min (inner_min tp_cost crafting_cost) vendor_cost with
  | none => none
  | some cost =>
      -- give trading post precedence over crafting if costs are equal
      if tp_cost = some cost then
        some ⟨cost, Source.TradingPost, time_gated, needs_ascended⟩
      else if crafting_cost = some cost then
        some ⟨cost, Source.Crafting, time_gated, needs_ascended⟩
      else
        some ⟨cost, Source.Vendor, time_gated, needs_ascended⟩

/-- The read-only recipe catalogue (`recipes_map`). -/
abbrev RecipesMap := List (Nat × Recipe)

/-- The read-only item catalogue (`items_map`). -/
abbrev ItemsMap := List (Nat × Item)

/-- The live order book (`tp_listings_map`), threaded through every call that
touches an `ItemListings` object so that the proofs can speak about which
calls leave it unchanged. -/
abbrev ListingsMap := List (Nat × ItemListings)

/-- The return value of `calculate_precise_min_crafting_cost`: the resolved
cost (or `none`), the tentative-purchase list, the crafting-step counter, and
the (threaded) order book. -/
abbrev PReturn := Option CraftingCost × List (Nat × ℚ) × ℚ × ListingsMap

/-- Outcome of a `calculate_precise_min_crafting_cost` call. -/
abbrev PResult := Except PyErr PReturn

/-- The running state of the ingredient loop of
`calculate_precise_min_crafting_cost` (crafting.py lines 114-160): the
optional cost sum, the OR-accumulated flags, the tentative-purchase list, the
step counter, and the threaded order book. -/
structure IngLoop where
  cost : Option Int
  time_gated : Bool
  needs_ascended : Bool
  tp_purchases : List (Nat × ℚ)
  crafting_steps : ℚ
  tp_listings_map : ListingsMap
deriving Repr, DecidableEq

/-- The `output_item_count` default of crafting.py lines 109-112 and 317-320:
a recipe whose `output_item_count` is `None` produces one item per batch. -/
def output_count (recipe : Recipe) : Int :=
  match recipe.output_item_count with
  | none => 1
  | some n => n

/-- The tail of `calculate_precise_min_crafting_cost` (crafting.py lines
167-185): look up the live top-of-book sell price (a non-mutating read, so
the looked-up entry is stored back unchanged), the vendor price, select the
lowest cost, and either roll the speculative bookkeeping back to its entry
state (winning source is not `Crafting`) or commit it, adding
`1 / output_item_count` to the step counter.  When `select_lowest_cost`
returns `None` the source dereferences `lowest_cost.source` (line 176), an
`AttributeError`. -/
def precise_select_phase (item : Item) (item_id : Nat)
    (tp_listings_map : ListingsMap) (tp_purchases : List (Nat × ℚ))
    (crafting_steps : ℚ) (tp_purchases_ptr : Nat) (crafting_steps_before : ℚ)
    (crafting_cost : Option Int) (time_gated : Bool) (needs_ascended : Bool)
    (output_item_count : Int) : PResult :=
  let (tp_cost, tp_listings_map) :=
    match lookupA tp_listings_map item_id with
    | some entry =>
        let r := entry.lowest_sell_offer 1
        (r.1, setA tp_listings_map item_id r.2)
    | none => (none, tp_listings_map)
  let vendor_cost := vendor_price item
  match select_lowest_cost crafting_cost tp_cost vendor_cost time_gated needs_ascended with
  | none => .error .attributeError
  | some lowest_cost =>
      if lowest_cost.source ≠ Source.Crafting then
        -- Rollback crafting
        .ok (some lowest_cost, tp_purchases.take tp_purchases_ptr,
             crafting_steps_before, tp_listings_map)
      else
        -- increment crafting steps here, so that the final item
        -- itself is also included in the crafting step count.
        .ok (some lowest_cost, tp_purchases,
             crafting_steps + 1 / (output_item_count : ℚ), tp_listings_map)

/-- One pass of the ingredient `for` loop of
`calculate_precise_min_crafting_cost` (crafting.py lines 116-160), abstracted
over the recursive call (`recurse` takes the ingredient id and the three
pieces of threaded state).  A `.inl` error is a propagated runtime error; a
`.inr` value is the loop's early `return` (the ingredient-unavailable
rollback of line 130), carrying the whole function's return value built from
the caller's entry pointers. -/
def precise_ingredient_step
    (recurse : Nat → ListingsMap → List (Nat × ℚ) → ℚ → PResult)
    (output_item_count : Int) (tp_purchases_ptr : Nat)
    (crafting_steps_before : ℚ) (st : IngLoop) (ingredient : RecipeIngredient) :
    Except (PyErr ⊕ PReturn) IngLoop :=
  let tp_purchases_ingredient_ptr := st.tp_purchases.length
  let crafting_steps_before_ingredient := st.crafting_steps
  match recurse ingredient.item_id st.tp_listings_map st.tp_purchases
      st.crafting_steps with
  | .error e => .error (.inl e)
  | .ok (none, tp_purchases2, _, lm2) =>
      -- Rollback crafting (early return, line 130)
      .error (.inr (none, tp_purchases2.take tp_purchases_ptr,
                    crafting_steps_before, lm2))
  | .ok (some ingredient_cost, tp_purchases2, crafting_steps2, lm2) =>
      let time_gated2 := st.time_gated || ingredient_cost.time_gated
      let needs_ascended2 := st.needs_ascended || ingredient_cost.needs_ascended
      -- NB: the trading post liquidity reductions are deferred until the
      -- parent recipe is fully completed, so that they can be rolled back
      -- (source comment, lines 142-145).
      let pr :=
        if ingredient_cost.source = Source.TradingPost then
          (tp_purchases2 ++
             [(ingredient.item_id,
               (ingredient.count : ℚ) / (output_item_count : ℚ))],
           crafting_steps2)
        else if ingredient_cost.source = Source.Crafting then
          -- repeat purchases of the ingredient's children
          (tp_purchases2.take tp_purchases_ingredient_ptr ++
             (tp_purchases2.drop tp_purchases_ingredient_ptr).map
               (fun pc => (pc.1,
                 pc.2 * (ingredient.count : ℚ) / (output_item_count : ℚ))),
           crafting_steps_before_ingredient +
             (crafting_steps2 - crafting_steps_before_ingredient) *
               (ingredient.count : ℚ) / (output_item_count : ℚ))
        else
          (tp_purchases2, crafting_steps2)
      let cost2 : Option Int :=
        match st.cost with
        | none => some (ingredient_cost.cost * ingredient.count)
        | some c => some (c + ingredient_cost.cost * ingredient.count)
      .ok { cost := cost2, time_gated := time_gated2,
            needs_ascended := needs_ascended2,
            tp_purchases := pr.1, crafting_steps := pr.2,
            tp_listings_map := lm2 }

/-- The ingredient `for` loop of `calculate_precise_min_crafting_cost`:
`precise_ingredient_step` folded over the ingredient list, with a `.error`
short-circuiting the loop (either a propagated runtime error or the early
`return` of line 130). -/
def precise_ingredient_loop
    (recurse : Nat → ListingsMap → List (Nat × ℚ) → ℚ → PResult)
    (output_item_count : Int) (tp_purchases_ptr : Nat)
    (crafting_steps_before : ℚ) :
    List RecipeIngredient → IngLoop → Except (PyErr ⊕ PReturn) IngLoop
  | [], st => .ok st
  | ingredient :: rest, st =>
      match precise_ingredient_step recurse output_item_count tp_purchases_ptr
          crafting_steps_before st ingredient with
      | .error e => .error e
      | .ok st2 =>
          precise_ingredient_loop recurse output_item_count tp_purchases_ptr
            crafting_steps_before rest st2

/-- crafting.py `calculate_precise_min_crafting_cost`: the precise-mode
recursive resolver.  `fuel` models Python's recursion limit (exhaustion is
`recursionError`).  The ingredient `for` loop is `precise_ingredient_loop`
with the recursive call instantiated at the smaller fuel.  A time-gated
recipe only sets the `time_gated` flag; nothing in this version of the
source excludes it. -/
def calculate_precise_min_crafting_cost :
    Nat → Nat → RecipesMap → ItemsMap → ListingsMap → List (Nat × ℚ) → ℚ → PResult
  | 0, _, _, _, _, _, _ => .error .recursionError
  | fuel + 1, item_id, recipes_map, items_map, tp_listings_map, tp_purchases,
      crafting_steps =>
    match lookupA items_map item_id with
    | none => .error .assertionError  -- assert item_id in items_map
    | some item =>
      let tp_purchases_ptr := tp_purchases.length
      let crafting_steps_before := crafting_steps
      let needs_ascended := is_common_ascended_material item
      match lookupA recipes_map item_id with
      | none =>
          -- no recipe: crafting_cost stays None, time_gated stays False.
          -- `output_item_count` is unbound in the source on this path; the
          -- branch that reads it (the Crafting commit) is unreachable, and
          -- the model passes 1.
          precise_select_phase item item_id tp_listings_map tp_purchases
            crafting_steps tp_purchases_ptr crafting_steps_before
            none false needs_ascended 1
      | some recipe =>
          let time_gated := is_time_gated recipe
          let output_item_count : Int := output_count recipe
          let fold : Except (PyErr ⊕ PReturn) IngLoop :=
            precise_ingredient_loop
              (fun id lm p s =>
                calculate_precise_min_crafting_cost fuel id recipes_map
                  items_map lm p s)
              output_item_count tp_purchases_ptr crafting_steps_before
              recipe.ingredients
              { cost := none, time_gated := time_gated,
                needs_ascended := needs_ascended,
                tp_purchases := tp_purchases, crafting_steps := crafting_steps,
                tp_listings_map := tp_listings_map }
          match fold with
          | .error (.inl e) => .error e
          | .error (.inr r) => .ok r
          | .ok st =>
              let crafting_cost : Option Int :=
                match st.cost with
                | none => none
                | some cost => some (div_int_ceil cost output_item_count)
              precise_select_phase item item_id st.tp_listings_map st.tp_purchases
                st.crafting_steps tp_purchases_ptr crafting_steps_before
                crafting_cost st.time_gated st.needs_ascended output_item_count

/-- The running state of the ingredient loop of
`calculate_estimated_min_crafting_cost` (crafting.py lines 295-315). -/
structure EstLoop where
  cost : Int
  time_gated : Bool
  needs_ascended : Bool
deriving Repr, DecidableEq

/-- The top-of-book sell price of crafting.py lines 324-330: `None` when the
item has no price entry or its listed sell quantity is zero. -/
def estimated_tp_cost : Option Price → Option Int
  | none => none
  | some price => if price.sells.quantity = 0 then none else some price.sells.unit_price

/-- crafting.py `calculate_estimated_min_crafting_cost`: the estimated-mode
resolver, screening against the top-of-book prices only; pure, no order-book
access.  Its ingredient loop's early `return None` (an unavailable
ingredient) is the `.inr` outcome and makes the whole call return `none`;
unlike the precise resolver, this function hands the result of
`select_lowest_cost` back unchanged, so "no viable source" really is an
`ok none` here. -/
def calculate_estimated_min_crafting_cost :
    Nat → Nat → RecipesMap → ItemsMap → List (Nat × Price) →
    Except PyErr (Option CraftingCost)
  | 0, _, _, _, _ => .error .recursionError
  | fuel + 1, item_id, recipes_map, items_map, tp_prices_map =>
    match lookupA items_map item_id with
    | none => .error .assertionError  -- assert item_id in items_map
    | some item =>
      let needs_ascended := is_common_ascended_material item
      let recipePhase : Except (PyErr ⊕ Unit) (Option Int × Bool × Bool) :=
        match lookupA recipes_map item_id with
        | none => .ok (none, false, needs_ascended)
        | some recipe =>
            let time_gated := is_time_gated recipe
            let fold : Except (PyErr ⊕ Unit) EstLoop :=
              recipe.ingredients.foldlM
                (fun (st : EstLoop) (ingredient : RecipeIngredient) =>
                  match calculate_estimated_min_crafting_cost fuel
                      ingredient.item_id recipes_map items_map tp_prices_map with
                  | .error e => .error (.inl e)
                  | .ok none => .error (.inr ())  -- return None
                  | .ok (some ingredient_cost) =>
                      .ok { cost := st.cost + ingredient_cost.cost * ingredient.count,
                            time_gated := st.time_gated || ingredient_cost.time_gated,
                            needs_ascended :=
                              st.needs_ascended || ingredient_cost.needs_ascended })
                { cost := 0, time_gated := time_gated, needs_ascended := needs_ascended }
            match fold with
            | .error e => .error e
            | .ok st =>
                let output_item_count : Int := output_count recipe
                .ok (some (div_int_ceil st.cost output_item_count),
                     st.time_gated, st.needs_ascended)
      match recipePhase with
      | .error (.inl e) => .error e
      | .error (.inr _) => .ok none  -- the ingredient loop's `return None`
      | .ok (crafting_cost, time_gated, na) =>
          let tp_cost := estimated_tp_cost (lookupA tp_prices_map item_id)
          .ok (select_lowest_cost crafting_cost tp_cost (vendor_price item)
                 time_gated na)

/-- The purchase-commit loop of `calculate_crafting_profit` (crafting.py
lines 233-241): for each recorded tentative purchase, assert the item has a
book entry, buy `ceil(count)` units (mutating the book even when the buy
fails part-way), and create-or-accumulate the Purchase Ledger entry.  A
failed buy returns `None`, which the source immediately unpacks into a
tuple: a `TypeError`. -/
def commit_purchases :
    List (Nat × ℚ) → ListingsMap → List (Nat × PurchasedIngredient) →
    Except PyErr (ListingsMap × List (Nat × PurchasedIngredient))
  | [], tp_listings_map, purchased_ingredients =>
      .ok (tp_listings_map, purchased_ingredients)
  | (item_id, count) :: rest, tp_listings_map, purchased_ingredients =>
      match lookupA tp_listings_map item_id with
      | none => .error .assertionError  -- assert item_id in tp_listings_map
      | some entry =>
          let r := entry.buy (Int.toNat ⌈count⌉)
          let tp_listings_map2 := setA tp_listings_map item_id r.2
          match r.1 with
          | none => .error .typeError  -- buy_price, buy_listings = None
          | some (buy_price, buy_listings) =>
              let purchased2 :=
                match lookupA purchased_ingredients item_id with
                | some p =>
                    setA purchased_ingredients item_id
                      (p.buy count buy_price buy_listings)
                | none =>
                    purchased_ingredients ++
                      [(item_id, ⟨count, buy_price, buy_listings⟩)]
              commit_purchases rest tp_listings_map2 purchased2

/-- The `while True` loop of `calculate_crafting_profit` (crafting.py lines
200-243) with its accumulators as arguments.  Each iteration resolves the
precise cost against the current book, consumes one top buy order
(`listings.sell()` — executed before the profit test), and either commits
the iteration (profit > 0) or stops.  `loopBound` exhaustion is the
`loopLimit` outcome and stands for a non-terminating run; the final `return`
reads `crafting_cost.time_gated`, so a loop left by the
`crafting_cost is None` break would raise an `AttributeError` (line 252). -/
def calculate_crafting_profit_loop (fuel : Nat) (recipes_map : RecipesMap)
    (items_map : ItemsMap) :
    Nat → ItemListings → ListingsMap → Int → Int → Int → Int → ℚ →
    List (Nat × PurchasedIngredient) →
    Except PyErr (ProfitableItem × ItemListings × ListingsMap)
  | 0, _, _, _, _, _, _, _, _ => .error .loopLimit
  | loopBound + 1, listings, tp_listings_map, listing_profit,
      total_crafting_cost, profitability_threshold, crafting_count,
      total_crafting_steps, purchased_ingredients =>
    match calculate_precise_min_crafting_cost fuel listings.id recipes_map
        items_map tp_listings_map [] 0 with
    | .error e => .error e
    | .ok (crafting_cost_opt, tp_purchases, crafting_steps, tp_listings_map2) =>
      match crafting_cost_opt with
      | none => .error .attributeError
        -- break (line 213), then `crafting_cost.time_gated` on None (line 252)
      | some crafting_cost =>
        let sold := listings.sell
        match sold.1 with
        | none =>
            -- break (line 218): return the aggregates so far
            .ok ({ id := listings.id, crafting_cost := total_crafting_cost,
                   crafting_steps := total_crafting_steps,
                   count := crafting_count, profit := listing_profit,
                   profitability_threshold := profitability_threshold,
                   time_gated := crafting_cost.time_gated,
                   needs_ascended := crafting_cost.needs_ascended,
                   purchased_ingredients := purchased_ingredients },
                 sold.2, tp_listings_map2)
        | some buy_price =>
            let profit := effective_buy_price buy_price - crafting_cost.cost
            if profit > 0 then
              match commit_purchases tp_purchases tp_listings_map2
                  purchased_ingredients with
              | .error e => .error e
              | .ok (tp_listings_map3, purchased_ingredients2) =>
                  calculate_crafting_profit_loop fuel recipes_map items_map
                    loopBound sold.2 tp_listings_map3
                    (listing_profit + profit)
                    (total_crafting_cost + crafting_cost.cost)
                    (effective_sell_price crafting_cost.cost)
                    (crafting_count + 1)
                    (total_crafting_steps + crafting_steps)
                    purchased_ingredients2
            else
              -- break (line 231): the sell consumed above is not restored
              .ok ({ id := listings.id, crafting_cost := total_crafting_cost,
                     crafting_steps := total_crafting_steps,
                     count := crafting_count, profit := listing_profit,
                     profitability_threshold := profitability_threshold,
                     time_gated := crafting_cost.time_gated,
                     needs_ascended := crafting_cost.needs_ascended,
                     purchased_ingredients := purchased_ingredients },
                   sold.2, tp_listings_map2)

/-- crafting.py `calculate_crafting_profit`: the Profit Simulator.  Drives
repeated precise resolutions of `listings.id` against the live book,
committing each profitable iteration (one sell plus the recorded tentative
purchases) into the accumulators and the Purchase Ledger.  Returns the final
`ProfitableItem` together with the final state of `listings` and of
`tp_listings_map` (both mutated in place in the source). -/
def calculate_crafting_profit (fuel : Nat) (loopBound : Nat)
    (listings : ItemListings) (recipes_map : RecipesMap) (items_map : ItemsMap)
    (tp_listings_map : ListingsMap) :
    Except PyErr (ProfitableItem × ItemListings × ListingsMap) :=
  calculate_crafting_profit_loop fuel recipes_map items_map loopBound listings
    tp_listings_map 0 0 0 0 0 []

/-- Modelled from the spec: `CraftingOptions{include_time_gated,
include_ascended, count}`.  main.py constructs and passes this object, but
the version of crafting.py under src/ takes no options argument — the
options-aware resolver is not part of the staged sources. -/
structure CraftingOptions where
  include_time_gated : Bool
  include_ascended : Bool
  count : Option Nat
deriving Repr, DecidableEq

/-- Modelled from the spec: "Recipe is treated as unavailable if it is
time-gated and `include_time_gated` is false."  Treating a recipe as
unavailable is exactly resolving against a catalogue from which it is
absent. -/
def filter_time_gated (options : CraftingOptions) (recipes_map : RecipesMap) :
    RecipesMap :=
  if options.include_time_gated then recipes_map
  else recipes_map.filter (fun p => !is_time_gated p.2)

/-- Modelled from the spec: the options-aware precise resolver (absent from
src/arbitrageur/crafting.py, though main.py passes `crafting_options` to it):
the staged resolver run with time-gated recipes made unavailable when
`include_time_gated` is false. -/
def calculate_precise_min_crafting_cost_opts (options : CraftingOptions)
    (fuel : Nat) (item_id : Nat) (recipes_map : RecipesMap)
    (items_map : ItemsMap) (tp_listings_map : ListingsMap)
    (tp_purchases : List (Nat × ℚ)) (crafting_steps : ℚ) : PResult :=
  calculate_precise_min_crafting_cost fuel item_id
    (filter_time_gated options recipes_map) items_map tp_listings_map
    tp_purchases crafting_steps

/-- Modelled from the spec: the options-aware estimated resolver (absent from
src/arbitrageur/crafting.py, though main.py passes `crafting_options` to it). -/
def calculate_estimated_min_crafting_cost_opts (options : CraftingOptions)
    (fuel : Nat) (item_id : Nat) (recipes_map : RecipesMap)
    (items_map : ItemsMap) (tp_prices_map : List (Nat × Price)) :
    Except PyErr (Option CraftingCost) :=
  calculate_estimated_min_crafting_cost fuel item_id
    (filter_time_gated options recipes_map) items_map tp_prices_map

/-- The total money represented by a price-to-quantity breakdown:
`Σ unit_price · quantity`. -/
def listing_sum (bd : Breakdown) : Int :=
  (bd.map (fun pq => pq.1 * pq.2)).sum

/-- The Purchase Ledger invariant of claim C10: every entry's `cost` equals
the sum over its breakdown of price times quantity. -/
def ledger_ok (pi : List (Nat × PurchasedIngredient)) : Prop :=
  ∀ e ∈ pi, e.2.cost = listing_sum e.2.listings

/-- The total quantity listed on an entry's buy ladder. -/
def totalBuyQuantity (l : ItemListings) : Int :=
  (l.buys.map Listing.quantity).sum

/-- The total quantity listed on an entry's sell ladder. -/
def sell_ladder_quantity (l : ItemListings) : Int :=
  (l.sells.map Listing.quantity).sum

/-- A ladder (cheapest level first) flattened into one price per listed
unit. -/
def unit_price_expansion : List Listing → List Int
  | [] => []
  | s :: rest =>
      List.replicate s.quantity.toNat s.unit_price ++ unit_price_expansion rest

/-- The price of the `n`-th cheapest listed unit (1-indexed) of an entry's
sell ladder. -/
def nth_cheapest_price (l : ItemListings) (n : Nat) : Option Int :=
  (unit_price_expansion l.sells.reverse)[n - 1]?

/-! ## Helper lemmas -/

/-- Writing back the value a key already holds leaves the association list
unchanged. -/
theorem setA_lookup_self {α : Type} :
    ∀ (m : List (Nat × α)) (k : Nat) (v : α),
      lookupA m k = some v → setA m k v = m := by
  intro m k v h
  induction m with
  | nil => simp [lookupA] at h
  | cons hd tl ih =>
      obtain ⟨hk, hv⟩ := hd
      by_cases hkk : hk = k
      · subst hkk
        simp [lookupA] at h
        simp [setA, h]
      · simp [lookupA, hkk] at h
        simp [setA, hkk, ih h]

/-- Characterisation of a successful `precise_select_phase`: the threaded
book is returned as found, the result is always `some`, and the speculative
bookkeeping is either rolled back to the entry pointers (winning source is
not `Crafting`) or committed with the step increment. -/
theorem precise_select_phase_spec
    (item : Item) (item_id : Nat) (lm : ListingsMap) (purch : List (Nat × ℚ))
    (steps : ℚ) (ptr : Nat) (sb : ℚ) (cc : Option Int) (tg na : Bool) (oc : Int)
    (r : Option CraftingCost) (p2 : List (Nat × ℚ)) (s2 : ℚ) (lm2 : ListingsMap)
    (h : precise_select_phase item item_id lm purch steps ptr sb cc tg na oc =
      .ok (r, p2, s2, lm2)) :
    lm2 = lm ∧ ∃ c, r = some c ∧
      ((c.source ≠ Source.Crafting ∧ p2 = purch.take ptr ∧ s2 = sb) ∨
       (c.source = Source.Crafting ∧ p2 = purch ∧ s2 = steps + 1 / (oc : ℚ))) := by
  unfold precise_select_phase at h
  cases hl : lookupA lm item_id with
  | none =>
      simp only [hl] at h
      cases hsel : select_lowest_cost cc none (vendor_price item) tg na with
      | none => simp [hsel] at h
      | some c =>
          simp only [hsel] at h
          by_cases hsrc : c.source = Source.Crafting
          · simp [hsrc] at h
            obtain ⟨h1, h2, h3, h4⟩ := h
            refine ⟨h4.symm, c, h1.symm, Or.inr ⟨hsrc, h2.symm, ?_⟩⟩
            rw [one_div]
            exact h3.symm
          · simp [hsrc] at h
            obtain ⟨h1, h2, h3, h4⟩ := h
            exact ⟨h4.symm, c, h1.symm, Or.inl ⟨hsrc, h2.symm, h3.symm⟩⟩
  | some entry =>
      simp only [hl] at h
      have hback : setA lm item_id (entry.lowest_sell_offer 1).2 = lm := by
        have : (entry.lowest_sell_offer 1).2 = entry := rfl
        rw [this]
        exact setA_lookup_self lm item_id entry hl
      rw [hback] at h
      cases hsel : select_lowest_cost cc (entry.lowest_sell_offer 1).1
          (vendor_price item) tg na with
      | none => simp [hsel] at h
      | some c =>
          simp only [hsel] at h
          by_cases hsrc : c.source = Source.Crafting
          · simp [hsrc] at h
            obtain ⟨h1, h2, h3, h4⟩ := h
            refine ⟨h4.symm, c, h1.symm, Or.inr ⟨hsrc, h2.symm, ?_⟩⟩
            rw [one_div]
            exact h3.symm
          · simp [hsrc] at h
            obtain ⟨h1, h2, h3, h4⟩ := h
            exact ⟨h4.symm, c, h1.symm, Or.inl ⟨hsrc, h2.symm, h3.symm⟩⟩

/-- `precise_select_phase` can only fail with the `AttributeError` of
dereferencing `None.source`. -/
theorem precise_select_phase_err
    (item : Item) (item_id : Nat) (lm : ListingsMap) (purch : List (Nat × ℚ))
    (steps : ℚ) (ptr : Nat) (sb : ℚ) (cc : Option Int) (tg na : Bool) (oc : Int)
    (e : PyErr)
    (h : precise_select_phase item item_id lm purch steps ptr sb cc tg na oc =
      .error e) : e = .attributeError := by
  unfold precise_select_phase at h
  cases hl : lookupA lm item_id with
  | none =>
      simp only [hl] at h
      cases hsel : select_lowest_cost cc none (vendor_price item) tg na with
      | none => simp [hsel] at h; exact h.symm
      | some c =>
          simp only [hsel] at h
          by_cases hsrc : c.source = Source.Crafting <;> simp [hsrc] at h
  | some entry =>
      simp only [hl] at h
      cases hsel : select_lowest_cost cc (entry.lowest_sell_offer 1).1
          (vendor_price item) tg na with
      | none => simp [hsel] at h; exact h.symm
      | some c =>
          simp only [hsel] at h
          by_cases hsrc : c.source = Source.Crafting <;> simp [hsrc] at h

/-- The ingredient-loop step preserves "the purchase list extends `base` and
the threaded book is unchanged", and fails only by propagating an inner error
(never `loopLimit`/`typeError`) or by the early return carrying exactly the
caller's entry state. -/
theorem precise_ingredient_step_inv
    (recurse : Nat → ListingsMap → List (Nat × ℚ) → ℚ → PResult)
    (oc : Int) (base : List (Nat × ℚ)) (lm : ListingsMap) (steps0 : ℚ)
    (hrec : ∀ id lm1 purch1 steps1 r p2 s2 lm2,
      recurse id lm1 purch1 steps1 = .ok (r, p2, s2, lm2) →
      lm2 = lm1 ∧ ∃ t, p2 = purch1 ++ t)
    (hrecerr : ∀ id lm1 purch1 steps1 e,
      recurse id lm1 purch1 steps1 = .error e →
      e ≠ PyErr.loopLimit ∧ e ≠ PyErr.typeError)
    (st : IngLoop) (ing : RecipeIngredient)
    (hP : (∃ t, st.tp_purchases = base ++ t) ∧ st.tp_listings_map = lm) :
    (∀ st2,
      precise_ingredient_step recurse oc base.length steps0 st ing = .ok st2 →
      (∃ t, st2.tp_purchases = base ++ t) ∧ st2.tp_listings_map = lm) ∧
    (∀ e,
      precise_ingredient_step recurse oc base.length steps0 st ing = .error e →
      (∀ e1, e = .inl e1 → e1 ≠ PyErr.loopLimit ∧ e1 ≠ PyErr.typeError) ∧
      (∀ rr, e = .inr rr → rr = (none, base, steps0, lm))) := by
  obtain ⟨⟨t0, hbase⟩, hlm⟩ := hP
  unfold precise_ingredient_step
  cases hcall : recurse ing.item_id st.tp_listings_map st.tp_purchases
      st.crafting_steps with
  | error e1 =>
      simp only [hcall]
      constructor
      · intro st2 h
        simp at h
      · intro e h
        simp at h
        subst h
        constructor
        · intro e2 he
          cases he
          exact hrecerr _ _ _ _ _ hcall
        · intro rr h2
          simp at h2
  | ok res =>
      obtain ⟨r, p2, s2, lm2⟩ := res
      obtain ⟨hlm2, t, hp2⟩ := hrec _ _ _ _ _ _ _ _ hcall
      rw [hlm] at hlm2
      cases r with
      | none =>
          simp only [hcall]
          constructor
          · intro st2 h
            simp at h
          · intro e h
            simp at h
            subst h
            constructor
            · intro e1 h1
              simp at h1
            · intro rr h2
              simp at h2
              subst h2
              have hp2base : p2 = base ++ (t0 ++ t) := by
                rw [hp2, hbase, List.append_assoc]
              rw [hp2base, hlm2, List.take_left]
      | some ingredient_cost =>
          simp only [hcall]
          constructor
          · intro st2 h
            simp only [Except.ok.injEq] at h
            subst h
            dsimp only
            by_cases hTP : ingredient_cost.source = Source.TradingPost
            · rw [if_pos hTP]
              exact ⟨⟨t0 ++ t ++ [(ing.item_id, (ing.count : ℚ) / (oc : ℚ))],
                by simp [hp2, hbase, List.append_assoc]⟩, hlm2⟩
            · by_cases hCr : ingredient_cost.source = Source.Crafting
              · rw [if_neg hTP, if_pos hCr]
                have htake : p2.take st.tp_purchases.length = st.tp_purchases := by
                  rw [hp2, List.take_left]
                refine ⟨⟨t0 ++ (p2.drop st.tp_purchases.length).map
                  (fun pc => (pc.1, pc.2 * (ing.count : ℚ) / (oc : ℚ))), ?_⟩, hlm2⟩
                dsimp only
                rw [htake, hbase, List.append_assoc]
              · rw [if_neg hTP, if_neg hCr]
                exact ⟨⟨t0 ++ t, by rw [hp2, hbase, List.append_assoc]⟩, hlm2⟩
          · intro e h
            by_cases hTP : ingredient_cost.source = Source.TradingPost
            · simp [hTP] at h
            · by_cases hCr : ingredient_cost.source = Source.Crafting
              · simp [hTP, hCr] at h
              · simp [hTP, hCr] at h

/-- Invariant of the whole ingredient loop, lifted from
`precise_ingredient_step_inv`: from any state whose purchase list extends
`base` and whose book is `lm`, the loop keeps both, and its early return
carries exactly the caller's entry state. -/
theorem precise_ingredient_loop_inv
    (recurse : Nat → ListingsMap → List (Nat × ℚ) → ℚ → PResult)
    (oc : Int) (base : List (Nat × ℚ)) (lm : ListingsMap) (steps0 : ℚ)
    (hrec : ∀ id lm1 purch1 steps1 r p2 s2 lm2,
      recurse id lm1 purch1 steps1 = .ok (r, p2, s2, lm2) →
      lm2 = lm1 ∧ ∃ t, p2 = purch1 ++ t)
    (hrecerr : ∀ id lm1 purch1 steps1 e,
      recurse id lm1 purch1 steps1 = .error e →
      e ≠ PyErr.loopLimit ∧ e ≠ PyErr.typeError) :
    ∀ (ings : List RecipeIngredient) (st : IngLoop),
      (∃ t, st.tp_purchases = base ++ t) → st.tp_listings_map = lm →
      (∀ st2,
        precise_ingredient_loop recurse oc base.length steps0 ings st = .ok st2 →
        (∃ t, st2.tp_purchases = base ++ t) ∧ st2.tp_listings_map = lm) ∧
      (∀ e1,
        precise_ingredient_loop recurse oc base.length steps0 ings st =
          .error (.inl e1) → e1 ≠ PyErr.loopLimit ∧ e1 ≠ PyErr.typeError) ∧
      (∀ rr,
        precise_ingredient_loop recurse oc base.length steps0 ings st =
          .error (.inr rr) → rr = (none, base, steps0, lm)) := by
  intro ings
  induction ings with
  | nil =>
      intro st hpre hlm
      refine ⟨?_, ?_, ?_⟩
      · intro st2 h
        simp only [precise_ingredient_loop, Except.ok.injEq] at h
        exact h ▸ ⟨hpre, hlm⟩
      · intro e1 h
        simp [precise_ingredient_loop] at h
      · intro rr h
        simp [precise_ingredient_loop] at h
  | cons ing rest ih =>
      intro st hpre hlm
      have hstep := precise_ingredient_step_inv recurse oc base lm steps0
        hrec hrecerr st ing ⟨hpre, hlm⟩
      cases hs : precise_ingredient_step recurse oc base.length steps0 st ing with
      | error e =>
          have he := hstep.2 e hs
          refine ⟨?_, ?_, ?_⟩
          · intro st2 h
            simp only [precise_ingredient_loop, hs] at h
            exact absurd h (by simp)
          · intro e1 h
            simp only [precise_ingredient_loop, hs, Except.error.injEq] at h
            exact he.1 e1 h
          · intro rr h
            simp only [precise_ingredient_loop, hs, Except.error.injEq] at h
            exact he.2 rr h
      | ok st1 =>
          have hP1 := hstep.1 st1 hs
          have hnext := ih st1 hP1.1 hP1.2
          refine ⟨?_, ?_, ?_⟩
          · intro st2 h
            simp only [precise_ingredient_loop, hs] at h
            exact hnext.1 st2 h
          · intro e1 h
            simp only [precise_ingredient_loop, hs] at h
            exact hnext.2.1 e1 h
          · intro rr h
            simp only [precise_ingredient_loop, hs] at h
            exact hnext.2.2 rr h

/-- Frame and rollback-extension property of the precise resolver: a
successful call returns the threaded book exactly as it received it and a
purchase list that extends the one passed in; a failing call never fails
with the errors reserved for other functions of the model. -/
theorem precise_frame :
    ∀ (fuel : Nat) (item_id : Nat) (rm : RecipesMap) (im : ItemsMap)
      (lm : ListingsMap) (purch : List (Nat × ℚ)) (steps : ℚ),
    (∀ r p2 s2 lm2,
       calculate_precise_min_crafting_cost fuel item_id rm im lm purch steps =
         .ok (r, p2, s2, lm2) → lm2 = lm ∧ ∃ t, p2 = purch ++ t) ∧
    (∀ e,
       calculate_precise_min_crafting_cost fuel item_id rm im lm purch steps =
         .error e → e ≠ PyErr.loopLimit ∧ e ≠ PyErr.typeError) := by
  intro fuel
  induction fuel with
  | zero =>
      intro item_id rm im lm purch steps
      constructor
      · intro r p2 s2 lm2 h
        simp [calculate_precise_min_crafting_cost] at h
      · intro e h
        simp only [calculate_precise_min_crafting_cost, Except.error.injEq] at h
        subst h
        exact ⟨by simp, by simp⟩
  | succ fuel ih =>
      intro item_id rm im lm purch steps
      have hrec : ∀ id lm1 purch1 steps1 r p2 s2 lm2,
          calculate_precise_min_crafting_cost fuel id rm im lm1 purch1 steps1 =
            .ok (r, p2, s2, lm2) → lm2 = lm1 ∧ ∃ t, p2 = purch1 ++ t :=
        fun id lm1 purch1 steps1 r p2 s2 lm2 h =>
          (ih id rm im lm1 purch1 steps1).1 r p2 s2 lm2 h
      have hrecerr : ∀ id lm1 purch1 steps1 e,
          calculate_precise_min_crafting_cost fuel id rm im lm1 purch1 steps1 =
            .error e → e ≠ PyErr.loopLimit ∧ e ≠ PyErr.typeError :=
        fun id lm1 purch1 steps1 e h => (ih id rm im lm1 purch1 steps1).2 e h
      constructor
      · intro r p2 s2 lm2 h
        rw [calculate_precise_min_crafting_cost] at h
        split at h
        · exact absurd h (by simp)
        · rename_i item hitem
          split at h
          · rename_i hrecipe
            have := precise_select_phase_spec _ _ _ _ _ _ _ _ _ _ _ _ _ _ _ h
            obtain ⟨hlm2, c, hc, hcases⟩ := this
            refine ⟨hlm2, ?_⟩
            rcases hcases with ⟨_, hp, _⟩ | ⟨_, hp, _⟩
            · exact ⟨[], by rw [hp, List.take_length, List.append_nil]⟩
            · exact ⟨[], by rw [hp, List.append_nil]⟩
          · rename_i recipe hrecipe
            have hloop := precise_ingredient_loop_inv
              (fun id lm1 p s =>
                calculate_precise_min_crafting_cost fuel id rm im lm1 p s)
              (output_count recipe)
              purch lm steps hrec hrecerr recipe.ingredients
              { cost := none, time_gated := is_time_gated recipe,
                needs_ascended := is_common_ascended_material item,
                tp_purchases := purch, crafting_steps := steps,
                tp_listings_map := lm }
              ⟨[], by simp⟩ rfl
            simp only [] at h
            split at h
            · exact absurd h (by simp)
            · rename_i rr hfold
              have hrr := hloop.2.2 rr hfold
              subst hrr
              simp only [Except.ok.injEq, Prod.mk.injEq] at h
              obtain ⟨h1, h2, h3, h4⟩ := h
              exact ⟨h4.symm, [], by rw [← h2, List.append_nil]⟩
            · rename_i st hfold
              have hst := hloop.1 st hfold
              have := precise_select_phase_spec _ _ _ _ _ _ _ _ _ _ _ _ _ _ _ h
              obtain ⟨hlm2, c, hc, hcases⟩ := this
              obtain ⟨⟨t, hstp⟩, hstlm⟩ := hst
              refine ⟨by rw [hlm2, hstlm], ?_⟩
              rcases hcases with ⟨_, hp, _⟩ | ⟨_, hp, _⟩
              · refine ⟨[], ?_⟩
                rw [hp, hstp, List.take_left, List.append_nil]
              · exact ⟨t, by rw [hp, hstp]⟩
      · intro e h
        rw [calculate_precise_min_crafting_cost] at h
        split at h
        · simp only [Except.error.injEq] at h
          subst h
          exact ⟨by simp, by simp⟩
        · rename_i item hitem
          split at h
          · rename_i hrecipe
            have := precise_select_phase_err _ _ _ _ _ _ _ _ _ _ _ _ h
            subst this
            exact ⟨by simp, by simp⟩
          · rename_i recipe hrecipe
            have hloop := precise_ingredient_loop_inv
              (fun id lm1 p s =>
                calculate_precise_min_crafting_cost fuel id rm im lm1 p s)
              (output_count recipe)
              purch lm steps hrec hrecerr recipe.ingredients
              { cost := none, time_gated := is_time_gated recipe,
                needs_ascended := is_common_ascended_material item,
                tp_purchases := purch, crafting_steps := steps,
                tp_listings_map := lm }
              ⟨[], by simp⟩ rfl
            simp only [] at h
            split at h
            · rename_i e1 hfold
              simp only [Except.error.injEq] at h
              subst h
              exact hloop.2.1 e1 hfold
            · rename_i rr hfold
              exact absurd h (by simp)
            · rename_i st hfold
              have := precise_select_phase_err _ _ _ _ _ _ _ _ _ _ _ _ h
              subst this
              exact ⟨by simp, by simp⟩

/-- Claim C2: a `calculate_precise_min_crafting_cost` call whose winning
source is not `Crafting`, or which reports unavailable (`none`, the
ingredient-recursion rollback), returns the tentative-purchase list exactly
as passed in at entry (truncated back to its entry length, no leftover
descendant records) and the crafting-step counter exactly at its entry
value. -/
theorem precise_rollback_exact (fuel : Nat) (item_id : Nat) (rm : RecipesMap)
    (im : ItemsMap) (lm : ListingsMap) (purch : List (Nat × ℚ)) (steps : ℚ)
    (r : Option CraftingCost) (p2 : List (Nat × ℚ)) (s2 : ℚ) (lm2 : ListingsMap)
    (h : calculate_precise_min_crafting_cost fuel item_id rm im lm purch steps =
      .ok (r, p2, s2, lm2))
    (hsrc : ∀ c, r = some c → c.source ≠ Source.Crafting) :
    p2 = purch ∧ s2 = steps := by
  cases fuel with
  | zero => simp [calculate_precise_min_crafting_cost] at h
  | succ fuel =>
      have hrec : ∀ id lm1 purch1 steps1 r1 q2 t2 km2,
          calculate_precise_min_crafting_cost fuel id rm im lm1 purch1 steps1 =
            .ok (r1, q2, t2, km2) → km2 = lm1 ∧ ∃ t, q2 = purch1 ++ t :=
        fun id lm1 purch1 steps1 r1 q2 t2 km2 hc =>
          (precise_frame fuel id rm im lm1 purch1 steps1).1 r1 q2 t2 km2 hc
      have hrecerr : ∀ id lm1 purch1 steps1 e,
          calculate_precise_min_crafting_cost fuel id rm im lm1 purch1 steps1 =
            .error e → e ≠ PyErr.loopLimit ∧ e ≠ PyErr.typeError :=
        fun id lm1 purch1 steps1 e hc =>
          (precise_frame fuel id rm im lm1 purch1 steps1).2 e hc
      rw [calculate_precise_min_crafting_cost] at h
      split at h
      · exact absurd h (by simp)
      · rename_i item hitem
        split at h
        · rename_i hrecipe
          have := precise_select_phase_spec _ _ _ _ _ _ _ _ _ _ _ _ _ _ _ h
          obtain ⟨hlm2, c, hc, hcases⟩ := this
          rcases hcases with ⟨_, hp, hsteps⟩ | ⟨hcr, _, _⟩
          · exact ⟨by rw [hp, List.take_length], hsteps⟩
          · exact absurd hcr (hsrc c hc)
        · rename_i recipe hrecipe
          have hloop := precise_ingredient_loop_inv
            (fun id lm1 p s =>
              calculate_precise_min_crafting_cost fuel id rm im lm1 p s)
            (output_count recipe)
            purch lm steps hrec hrecerr recipe.ingredients
            { cost := none, time_gated := is_time_gated recipe,
              needs_ascended := is_common_ascended_material item,
              tp_purchases := purch, crafting_steps := steps,
              tp_listings_map := lm }
            ⟨[], by simp⟩ rfl
          simp only [] at h
          split at h
          · exact absurd h (by simp)
          · rename_i rr hfold
            have hrr := hloop.2.2 rr hfold
            subst hrr
            simp only [Except.ok.injEq, Prod.mk.injEq] at h
            exact ⟨h.2.1.symm, h.2.2.1.symm⟩
          · rename_i st hfold
            have hst := hloop.1 st hfold
            have := precise_select_phase_spec _ _ _ _ _ _ _ _ _ _ _ _ _ _ _ h
            obtain ⟨hlm2, c, hc, hcases⟩ := this
            obtain ⟨⟨t, hstp⟩, hstlm⟩ := hst
            rcases hcases with ⟨_, hp, hsteps⟩ | ⟨hcr, _, _⟩
            · refine ⟨?_, hsteps⟩
              rw [hp, hstp, List.take_left]
            · exact absurd hcr (hsrc c hc)

/-- Witness for C2 at a concrete input: item 1 has no recipe and a
trading-post offer at 50, so the winning source is `TradingPost`; the
purchase list `[(7, 2)]` and step counter `3` pass through untouched. -/
theorem precise_rollback_exact_witness :
    [((7 : Nat), (2 : ℚ))] = [((7 : Nat), (2 : ℚ))] ∧ (3 : ℚ) = (3 : ℚ) :=
  precise_rollback_exact 5 1 [] [(1, ⟨1, "Widget", 0, []⟩)]
    [(1, ⟨1, [], [⟨1, 50, 3⟩]⟩)] [(7, 2)] 3
    (some ⟨50, Source.TradingPost, false, false⟩) [(7, 2)] 3
    [(1, ⟨1, [], [⟨1, 50, 3⟩]⟩)]
    (by rfl)
    (by intro c hc hcr; cases hc; simp at hcr)

/-- Claim C3: a successful `calculate_precise_min_crafting_cost` call leaves
every `ItemListings` of `tp_listings_map` exactly as it found it — the
threaded map comes back equal to the one passed in, because resolution only
performs the non-mutating `lowest_sell_offer` read. -/
theorem precise_book_unchanged (fuel : Nat) (item_id : Nat) (rm : RecipesMap)
    (im : ItemsMap) (lm : ListingsMap) (purch : List (Nat × ℚ)) (steps : ℚ)
    (r : Option CraftingCost) (p2 : List (Nat × ℚ)) (s2 : ℚ) (lm2 : ListingsMap)
    (h : calculate_precise_min_crafting_cost fuel item_id rm im lm purch steps =
      .ok (r, p2, s2, lm2)) :
    lm2 = lm :=
  ((precise_frame fuel item_id rm im lm purch steps).1 r p2 s2 lm2 h).1

/-- Witness for C3 at a concrete input: resolving the craftable item 1
(recipe 2 × item 2, both with live listings) returns the two-entry book it
was given. -/
theorem precise_book_unchanged_witness :
    ([(1, ⟨1, [⟨1, 100, 1⟩], []⟩), (2, ⟨2, [], [⟨1, 10, 5⟩]⟩)] : ListingsMap) =
      [(1, ⟨1, [⟨1, 100, 1⟩], []⟩), (2, ⟨2, [], [⟨1, 10, 5⟩]⟩)] :=
  precise_book_unchanged 5 1 [(1, ⟨10, 1, some 1, [⟨2, 2⟩]⟩)]
    [(1, ⟨1, "B", 0, []⟩), (2, ⟨2, "C", 0, []⟩)]
    [(1, ⟨1, [⟨1, 100, 1⟩], []⟩), (2, ⟨2, [], [⟨1, 10, 5⟩]⟩)] [] 0
    (some ⟨20, Source.Crafting, false, false⟩) [(2, 2)] 1
    [(1, ⟨1, [⟨1, 100, 1⟩], []⟩), (2, ⟨2, [], [⟨1, 10, 5⟩]⟩)]
    (by with_unfolding_all rfl)

/-- `inner_min` is `none` exactly when both arguments are. -/
theorem inner_min_eq_none (a b : Option Int) :
    inner_min a b = none ↔ a = none ∧ b = none := by
  rcases a with _ | x <;> rcases b with _ | y <;> simp [inner_min]

/-- A value produced by `inner_min` is one of its arguments. -/
theorem inner_min_mem (a b : Option Int) (m : Int) (h : inner_min a b = some m) :
    a = some m ∨ b = some m := by
  rcases a with _ | x
  · exact Or.inr h
  · rcases b with _ | y
    · exact Or.inl h
    · simp only [inner_min, Option.some.injEq] at h
      rcases min_choice x y with hm | hm
      · exact Or.inl (by rw [← h, hm])
      · exact Or.inr (by rw [← h, hm])

/-- A value produced by `inner_min` is a lower bound of both arguments. -/
theorem inner_min_le (a b : Option Int) (m : Int) (h : inner_min a b = some m) :
    (∀ x, a = some x → m ≤ x) ∧ (∀ y, b = some y → m ≤ y) := by
  rcases a with _ | x
  · refine ⟨fun z hz => by simp at hz, fun z hz => ?_⟩
    rw [hz] at h
    simp only [inner_min, Option.some.injEq] at h
    omega
  · rcases b with _ | y
    · refine ⟨fun z hz => ?_, fun z hz => by simp at hz⟩
      simp only [inner_min, Option.some.injEq] at h
      simp only [Option.some.injEq] at hz
      omega
    · simp only [inner_min, Option.some.injEq] at h
      have h1 := min_le_left x y
      have h2 := min_le_right x y
      refine ⟨fun z hz => ?_, fun z hz => ?_⟩ <;>
        simp only [Option.some.injEq] at hz <;> omega

/-- Claim C4: `select_lowest_cost` returns `None` iff all three costs are
unavailable; otherwise it returns the numeric minimum of the available costs,
with the source decided by the precedence TradingPost over Crafting over
Vendor at equal cost, and the flags passed through. -/
theorem select_lowest_cost_spec (c t v : Option Int) (tg na : Bool) :
    (select_lowest_cost c t v tg na = none ↔
      c = none ∧ t = none ∧ v = none) ∧
    (∀ cc, select_lowest_cost c t v tg na = some cc →
      ((c = some cc.cost ∨ t = some cc.cost ∨ v = some cc.cost) ∧
       (∀ x, c = some x → cc.cost ≤ x) ∧
       (∀ x, t = some x → cc.cost ≤ x) ∧
       (∀ x, v = some x → cc.cost ≤ x)) ∧
      (cc.source = Source.TradingPost ↔ t = some cc.cost) ∧
      (cc.source = Source.Crafting ↔ t ≠ some cc.cost ∧ c = some cc.cost) ∧
      (cc.source = Source.Vendor ↔ t ≠ some cc.cost ∧ c ≠ some cc.cost) ∧
      cc.time_gated = tg ∧ cc.needs_ascended = na) := by
  constructor
  · cases hmin : inner_min (inner_min t c) v with
    | none =>
        have h2 := hmin
        rw [inner_min_eq_none] at h2
        have h3 := h2.1
        rw [inner_min_eq_none] at h3
        simp only [select_lowest_cost, hmin]
        simp [h3.1, h3.2, h2.2]
    | some cost =>
        simp only [select_lowest_cost, hmin]
        constructor
        · intro h
          split_ifs at h
        · intro hall
          rw [hall.1, hall.2.1, hall.2.2] at hmin
          simp [inner_min] at hmin
  · intro cc h
    cases hmin : inner_min (inner_min t c) v with
    | none => simp [select_lowest_cost, hmin] at h
    | some cost =>
        simp only [select_lowest_cost, hmin] at h
        have hmem : t = some cost ∨ c = some cost ∨ v = some cost := by
          rcases inner_min_mem _ _ _ hmin with h1 | h1
          · rcases inner_min_mem _ _ _ h1 with h2 | h2
            · exact Or.inl h2
            · exact Or.inr (Or.inl h2)
          · exact Or.inr (Or.inr h1)
        have hlev : ∀ x, v = some x → cost ≤ x := (inner_min_le _ _ _ hmin).2
        have hle2 : ∀ x, t = some x → cost ≤ x := by
          intro x hx
          rcases ht2 : inner_min t c with _ | m
          · rw [inner_min_eq_none] at ht2
            rw [ht2.1] at hx
            simp at hx
          · have ha := (inner_min_le _ _ _ ht2).1 x hx
            have hb := (inner_min_le _ _ _ hmin).1 m ht2
            omega
        have hle3 : ∀ x, c = some x → cost ≤ x := by
          intro x hx
          rcases ht2 : inner_min t c with _ | m
          · rw [inner_min_eq_none] at ht2
            rw [ht2.2] at hx
            simp at hx
          · have ha := (inner_min_le _ _ _ ht2).2 x hx
            have hb := (inner_min_le _ _ _ hmin).1 m ht2
            omega
        by_cases ht : t = some cost
        · rw [if_pos ht] at h
          cases h
          refine ⟨⟨Or.inr (Or.inl ht), hle3, hle2, hlev⟩, ?_, ?_, ?_, rfl, rfl⟩ <;>
            simp [ht]
        · rw [if_neg ht] at h
          by_cases hc : c = some cost
          · rw [if_pos hc] at h
            cases h
            refine ⟨⟨Or.inl hc, hle3, hle2, hlev⟩, ?_, ?_, ?_, rfl, rfl⟩ <;>
              simp [ht, hc]
          · rw [if_neg hc] at h
            cases h
            have hv : v = some cost := by
              rcases hmem with h1 | h1 | h1
              · exact absurd h1 ht
              · exact absurd h1 hc
              · exact h1
            refine ⟨⟨Or.inr (Or.inr hv), hle3, hle2, hlev⟩, ?_, ?_, ?_, rfl, rfl⟩ <;>
              simp [ht, hc]

/-- When `include_time_gated` is off and every recipe entry for `item_id` is
time-gated, the filtered catalogue has no recipe for `item_id`. -/
theorem lookupA_filter_time_gated_none (options : CraftingOptions)
    (rm : RecipesMap) (item_id : Nat)
    (hoff : options.include_time_gated = false)
    (hgated : ∀ p ∈ rm, p.1 = item_id → is_time_gated p.2 = true) :
    lookupA (filter_time_gated options rm) item_id = none := by
  unfold filter_time_gated
  rw [hoff]
  simp only [Bool.false_eq_true, if_false]
  induction rm with
  | nil => simp [lookupA]
  | cons hd tl ih =>
      obtain ⟨k, r⟩ := hd
      by_cases hg : is_time_gated r = true
      · simp only [List.filter_cons, hg, Bool.not_true]
        exact ih (fun p hp hk => hgated p (List.mem_cons_of_mem _ hp) hk)
      · have hg2 : is_time_gated r = false := by
          revert hg
          cases is_time_gated r <;> simp
        have hk : ¬ k = item_id := by
          intro hkk
          have := hgated (k, r) (List.mem_cons_self _ _) hkk
          rw [this] at hg2
          cases hg2
        simp only [List.filter_cons, hg2, Bool.not_false, if_true, lookupA]
        rw [if_neg hk]
        exact ih (fun p hp hkk => hgated p (List.mem_cons_of_mem _ hp) hkk)

/-- With no crafting cost available, `select_lowest_cost` never picks
`Crafting`. -/
theorem select_none_not_crafting (t v : Option Int) (tg na : Bool)
    (cc : CraftingCost) (h : select_lowest_cost none t v tg na = some cc) :
    cc.source ≠ Source.Crafting := by
  unfold select_lowest_cost at h
  cases hmin : inner_min (inner_min t none) v with
  | none => simp [hmin] at h
  | some cost =>
      simp only [hmin] at h
      split_ifs at h with h1 h2
      · cases h
        simp
      · simp at h2
      · cases h
        simp

/-- The result of `precise_select_phase` with no crafting cost is never
`Crafting`-sourced. -/
theorem precise_select_phase_none_not_crafting (item : Item) (item_id : Nat)
    (lm : ListingsMap) (purch : List (Nat × ℚ)) (steps : ℚ) (ptr : Nat)
    (sb : ℚ) (tg na : Bool) (oc : Int) (r : Option CraftingCost)
    (p2 : List (Nat × ℚ)) (s2 : ℚ) (lm2 : ListingsMap)
    (h : precise_select_phase item item_id lm purch steps ptr sb none tg na oc =
      .ok (r, p2, s2, lm2)) :
    ∀ cc, r = some cc → cc.source ≠ Source.Crafting := by
  intro cc hr
  unfold precise_select_phase at h
  cases hl : lookupA lm item_id with
  | none =>
      simp only [hl] at h
      cases hsel : select_lowest_cost none none (vendor_price item) tg na with
      | none => simp [hsel] at h
      | some c =>
          simp only [hsel] at h
          have hc : r = some c := by
            by_cases hsrc : c.source = Source.Crafting <;> simp [hsrc] at h <;>
              exact h.1.symm
          rw [hc] at hr
          cases hr
          exact select_none_not_crafting _ _ _ _ _ hsel
  | some entry =>
      simp only [hl] at h
      cases hsel : select_lowest_cost none (entry.lowest_sell_offer 1).1
          (vendor_price item) tg na with
      | none => simp [hsel] at h
      | some c =>
          simp only [hsel] at h
          have hc : r = some c := by
            by_cases hsrc : c.source = Source.Crafting <;> simp [hsrc] at h <;>
              exact h.1.symm
          rw [hc] at hr
          cases hr
          exact select_none_not_crafting _ _ _ _ _ hsel

/-- Claim C7 (spec-modelled): with `include_time_gated` off, an item whose
recipe entries are all time-gated resolves with the recipe treated as
unavailable, in both precise and estimated modes, so the winning source can
only be `TradingPost` or `Vendor`. -/
theorem time_gated_excluded (options : CraftingOptions) (fuel : Nat)
    (item_id : Nat) (rm : RecipesMap) (im : ItemsMap) (lm : ListingsMap)
    (purch : List (Nat × ℚ)) (steps : ℚ) (pm : List (Nat × Price))
    (hoff : options.include_time_gated = false)
    (hgated : ∀ p ∈ rm, p.1 = item_id → is_time_gated p.2 = true) :
    (∀ r p2 s2 lm2,
      calculate_precise_min_crafting_cost_opts options fuel item_id rm im lm
        purch steps = .ok (r, p2, s2, lm2) →
      ∀ cc, r = some cc →
        cc.source = Source.TradingPost ∨ cc.source = Source.Vendor) ∧
    (∀ r,
      calculate_estimated_min_crafting_cost_opts options fuel item_id rm im pm =
        .ok r →
      ∀ cc, r = some cc →
        cc.source = Source.TradingPost ∨ cc.source = Source.Vendor) := by
  have hnone := lookupA_filter_time_gated_none options rm item_id hoff hgated
  constructor
  · intro r p2 s2 lm2 h cc hr
    cases fuel with
    | zero =>
        simp [calculate_precise_min_crafting_cost_opts,
          calculate_precise_min_crafting_cost] at h
    | succ fuel =>
        unfold calculate_precise_min_crafting_cost_opts at h
        rw [calculate_precise_min_crafting_cost] at h
        split at h
        · exact absurd h (by simp)
        · rename_i item hitem
          simp only [hnone] at h
          have := precise_select_phase_none_not_crafting _ _ _ _ _ _ _ _ _ _ _
            _ _ _ h cc hr
          cases hsrc : cc.source with
          | Crafting => exact absurd hsrc this
          | TradingPost => exact Or.inl rfl
          | Vendor => exact Or.inr rfl
  · intro r h cc hr
    cases fuel with
    | zero =>
        simp [calculate_estimated_min_crafting_cost_opts,
          calculate_estimated_min_crafting_cost] at h
    | succ fuel =>
        unfold calculate_estimated_min_crafting_cost_opts at h
        rw [calculate_estimated_min_crafting_cost] at h
        split at h
        · exact absurd h (by simp)
        · rename_i item hitem
          simp only [hnone] at h
          simp only [Except.ok.injEq] at h
          rw [← h] at hr
          have := select_none_not_crafting _ _ _ _ _ hr
          cases hsrc : cc.source with
          | Crafting => exact absurd hsrc this
          | TradingPost => exact Or.inl rfl
          | Vendor => exact Or.inr rfl

/-- Witness for C7 at a concrete input: recipe 46740 (Spool of Silk Weaving
Thread) is on the time-gated list; with `include_time_gated := false` both
resolvers settle on the trading post. -/
theorem time_gated_excluded_witness :
    (Source.TradingPost = Source.TradingPost ∨
      Source.TradingPost = Source.Vendor) ∧
    (Source.TradingPost = Source.TradingPost ∨
      Source.TradingPost = Source.Vendor) := by
  have h := time_gated_excluded ⟨false, true, none⟩ 5 46740
    [(46740, ⟨101, 46740, some 1, [⟨2, 1⟩]⟩)]
    [(46740, ⟨46740, "Spool of Silk Weaving Thread", 0, []⟩)]
    [(46740, ⟨46740, [], [⟨1, 5, 2⟩]⟩)] [] 0
    [(46740, ⟨46740, ⟨4, 1⟩, ⟨5, 2⟩⟩)]
    rfl (by decide)
  constructor
  · exact h.1 (some ⟨5, Source.TradingPost, false, false⟩) [] 0
      [(46740, ⟨46740, [], [⟨1, 5, 2⟩]⟩)] (by with_unfolding_all rfl)
      ⟨5, Source.TradingPost, false, false⟩ rfl
  · exact h.2 (some ⟨5, Source.TradingPost, false, false⟩)
      (by with_unfolding_all rfl) ⟨5, Source.TradingPost, false, false⟩ rfl

/-- Claim C1 counterexample: item 1 has a trading-post cost of 50 and a top
buy order of 40 (profit `⌊40·0.85⌋ − 50 < 0`), so the very first iteration
stops with nothing committed (`count = 0`, empty ledger) — yet the returned
order-book entry is NOT the one the simulator started from: `listings.sell()`
runs before the profit test and has consumed one unit of the top buy order
(quantity 2 → 1). -/
theorem profit_break_mutates_buys :
    calculate_crafting_profit 5 5 ⟨1, [⟨1, 40, 2⟩], [⟨1, 50, 3⟩]⟩ []
      [(1, ⟨1, "Widget", 0, []⟩)] [(1, ⟨1, [⟨1, 40, 2⟩], [⟨1, 50, 3⟩]⟩)] =
      .ok ({ id := 1, crafting_cost := 0, crafting_steps := 0, count := 0,
             profit := 0, profitability_threshold := 0, time_gated := false,
             needs_ascended := false, purchased_ingredients := [] },
           ⟨1, [⟨1, 40, 1⟩], [⟨1, 50, 3⟩]⟩,
           [(1, ⟨1, [⟨1, 40, 2⟩], [⟨1, 50, 3⟩]⟩)]) ∧
    (⟨1, [⟨1, 40, 1⟩], [⟨1, 50, 3⟩]⟩ : ItemListings) ≠
      ⟨1, [⟨1, 40, 2⟩], [⟨1, 50, 3⟩]⟩ := by
  constructor
  · with_unfolding_all rfl
  · decide

/-- Claim C1 (amended): when the first iteration's profit is ≤ 0, the
simulator stops without committing the iteration — no profit, cost, steps,
count or ledger entries are accumulated, no tentative purchase is executed,
and the rest of the book (`tp_listings_map`) is exactly as found — but the
top buy order consumed by the revenue peek (`listings.sell()`, which runs
before the profit test) is not restored: the returned entry is the post-sell
one. -/
theorem profit_leq_zero_stops (fuel loopBound : Nat) (listings : ItemListings)
    (rm : RecipesMap) (im : ItemsMap) (lm : ListingsMap)
    (cc : CraftingCost) (tp : List (Nat × ℚ)) (st : ℚ) (lm2 : ListingsMap)
    (bp : Int) (listings2 : ItemListings)
    (hres : calculate_precise_min_crafting_cost fuel listings.id rm im lm [] 0 =
      .ok (some cc, tp, st, lm2))
    (hsell : listings.sell = (some bp, listings2))
    (hprofit : effective_buy_price bp - cc.cost ≤ 0) :
    calculate_crafting_profit fuel (loopBound + 1) listings rm im lm =
      .ok ({ id := listings.id, crafting_cost := 0, crafting_steps := 0,
             count := 0, profit := 0, profitability_threshold := 0,
             time_gated := cc.time_gated, needs_ascended := cc.needs_ascended,
             purchased_ingredients := [] }, listings2, lm2) ∧
    lm2 = lm := by
  constructor
  · unfold calculate_crafting_profit
    rw [calculate_crafting_profit_loop]
    simp only [hres, hsell]
    rw [if_neg (by omega)]
  · exact ((precise_frame fuel listings.id rm im lm [] 0).1 _ _ _ _ hres).1

/-- Witness for the amended C1 at the counterexample's input. -/
theorem profit_leq_zero_stops_witness :
    calculate_crafting_profit 5 5 ⟨1, [⟨1, 40, 2⟩], [⟨1, 50, 3⟩]⟩ []
      [(1, ⟨1, "Widget", 0, []⟩)] [(1, ⟨1, [⟨1, 40, 2⟩], [⟨1, 50, 3⟩]⟩)] =
      .ok ({ id := 1, crafting_cost := 0, crafting_steps := 0, count := 0,
             profit := 0, profitability_threshold := 0, time_gated := false,
             needs_ascended := false, purchased_ingredients := [] },
           ⟨1, [⟨1, 40, 1⟩], [⟨1, 50, 3⟩]⟩,
           [(1, ⟨1, [⟨1, 40, 2⟩], [⟨1, 50, 3⟩]⟩)]) ∧
    ([(1, ⟨1, [⟨1, 40, 2⟩], [⟨1, 50, 3⟩]⟩)] : ListingsMap) =
      [(1, ⟨1, [⟨1, 40, 2⟩], [⟨1, 50, 3⟩]⟩)] :=
  profit_leq_zero_stops 5 4 ⟨1, [⟨1, 40, 2⟩], [⟨1, 50, 3⟩]⟩ []
    [(1, ⟨1, "Widget", 0, []⟩)] [(1, ⟨1, [⟨1, 40, 2⟩], [⟨1, 50, 3⟩]⟩)]
    ⟨50, Source.TradingPost, false, false⟩ [] 0
    [(1, ⟨1, [⟨1, 40, 2⟩], [⟨1, 50, 3⟩]⟩)] 40
    ⟨1, [⟨1, 40, 1⟩], [⟨1, 50, 3⟩]⟩
    (by with_unfolding_all rfl) (by with_unfolding_all rfl) (by decide)

/-- Claim C5 failing input: recipe B = 2 × C with only one unit of C listed.
Resolution judges C affordable via `lowest_sell_offer(1)` and the iteration
is profitable, but the commit-time `buy(2)` exhausts the ladder and returns
`None`, which `calculate_crafting_profit` unpacks into a tuple — a
`TypeError`.  The second conjunct shows the failing `buy` itself. -/
theorem commit_buy_type_error :
    calculate_crafting_profit 5 5 ⟨1, [⟨1, 100, 1⟩], []⟩
      [(1, ⟨10, 1, some 1, [⟨2, 2⟩]⟩)]
      [(1, ⟨1, "B", 0, []⟩), (2, ⟨2, "C", 0, []⟩)]
      [(1, ⟨1, [⟨1, 100, 1⟩], []⟩), (2, ⟨2, [], [⟨1, 10, 1⟩]⟩)] =
      .error .typeError ∧
    (ItemListings.buy ⟨2, [], [⟨1, 10, 1⟩]⟩ 2).1 = none := by
  constructor
  · with_unfolding_all rfl
  · rfl

/-- Claim C6 failing input: item 1 has no recipe, no book entry and no vendor
price, so `select_lowest_cost` returns `None`; the resolver then dereferences
`lowest_cost.source` (crafting.py line 176), an `AttributeError`, instead of
reporting "unavailable" as a normal result — and the profit simulator
propagates the crash instead of stopping and returning the aggregate
`ProfitableItem`. -/
theorem no_source_attribute_error :
    calculate_precise_min_crafting_cost 5 1 [] [(1, ⟨1, "Widget", 0, []⟩)]
      [] [] 0 = .error .attributeError ∧
    calculate_crafting_profit 5 5 ⟨1, [], []⟩ [] [(1, ⟨1, "Widget", 0, []⟩)]
      [] = .error .attributeError := by
  constructor
  · with_unfolding_all rfl
  · with_unfolding_all rfl

/-- Bumping a breakdown adds exactly `price · q` to its sum. -/
theorem listing_sum_bump (bd : Breakdown) (price q : Int) :
    listing_sum (bumpBreakdown bd price q) = listing_sum bd + price * q := by
  induction bd with
  | nil => simp [bumpBreakdown, listing_sum]
  | cons hd tl ih =>
      obtain ⟨p, c⟩ := hd
      by_cases hp : p = price
      · subst hp
        simp [bumpBreakdown, listing_sum]
        ring
      · simp only [bumpBreakdown, if_neg hp, listing_sum, List.map_cons,
          List.sum_cons]
        unfold listing_sum at ih
        omega

/-- Folding one breakdown into another adds the sums. -/
theorem listing_sum_fold (add : Breakdown) (acc : Breakdown) :
    listing_sum (add.foldl (fun a pq => bumpBreakdown a pq.1 pq.2) acc) =
      listing_sum acc + listing_sum add := by
  induction add generalizing acc with
  | nil => simp [listing_sum]
  | cons hd tl ih =>
      simp only [List.foldl_cons]
      rw [ih, listing_sum_bump]
      simp only [listing_sum, List.map_cons, List.sum_cons]
      ring

/-- `PurchasedIngredient.buy` preserves the ledger-entry invariant when the
added cost matches the added breakdown. -/
theorem PurchasedIngredient.buy_ok (p : PurchasedIngredient) (count : ℚ)
    (cost : Int) (bd : Breakdown)
    (hp : p.cost = listing_sum p.listings) (hc : cost = listing_sum bd) :
    (p.buy count cost bd).cost = listing_sum (p.buy count cost bd).listings := by
  unfold PurchasedIngredient.buy
  simp only
  rw [listing_sum_fold, hp, hc]

/-- The running cost of `buyGo` stays equal to the running breakdown sum. -/
theorem buyGo_cost_eq_sum :
    ∀ (n : Nat) (rev : List Listing) (cost : Int) (bd : Breakdown)
      (c : Int) (b : Breakdown) (rev2 : List Listing),
      buyGo n rev cost bd = (some (c, b), rev2) →
      cost = listing_sum bd → c = listing_sum b := by
  intro n
  induction n with
  | zero =>
      intro rev cost bd c b rev2 h hinv
      simp only [buyGo, Prod.mk.injEq, Option.some.injEq] at h
      obtain ⟨⟨h1, h2⟩, _⟩ := h
      rw [← h1, ← h2]
      exact hinv
  | succ n ih =>
      intro rev cost bd c b rev2 h hinv
      cases rev with
      | nil => simp [buyGo] at h
      | cons l rest =>
          simp only [buyGo] at h
          exact ih _ _ _ _ _ _ h
            (by rw [listing_sum_bump]; omega)

/-- A successful `ItemListings.buy` returns a cost equal to the sum of its
returned breakdown. -/
theorem ItemListings.buy_cost_eq_sum (l : ItemListings) (n : Nat) (c : Int)
    (b : Breakdown) (h : (l.buy n).1 = some (c, b)) : c = listing_sum b := by
  unfold ItemListings.buy at h
  simp only at h
  cases hgo : buyGo n l.sells.reverse 0 [] with
  | mk ores rev2 =>
      rw [hgo] at h
      simp only at h
      cases ores with
      | none => simp at h
      | some cb =>
          obtain ⟨c2, b2⟩ := cb
          simp only [Option.some.injEq, Prod.mk.injEq] at h
          obtain ⟨hc, hb⟩ := h
          rw [hc, hb] at hgo
          exact buyGo_cost_eq_sum n l.sells.reverse 0 [] c b rev2 hgo
            (by simp [listing_sum])

/-- A successful association-list lookup is a membership. -/
theorem lookupA_mem {α : Type} :
    ∀ (m : List (Nat × α)) (k : Nat) (v : α),
      lookupA m k = some v → (k, v) ∈ m := by
  intro m k v h
  induction m with
  | nil => simp [lookupA] at h
  | cons hd tl ih =>
      obtain ⟨k2, w⟩ := hd
      by_cases hk : k2 = k
      · subst hk
        simp [lookupA] at h
        simp [h]
      · simp only [lookupA, if_neg hk] at h
        exact List.mem_cons_of_mem _ (ih h)

/-- Membership in an updated association list: either the updated entry or an
original one. -/
theorem mem_setA {α : Type} :
    ∀ (m : List (Nat × α)) (k : Nat) (v : α) (e : Nat × α),
      e ∈ setA m k v → e = (k, v) ∨ e ∈ m := by
  intro m k v e h
  induction m with
  | nil =>
      simp [setA] at h
      simp [h]
  | cons hd tl ih =>
      obtain ⟨k2, w⟩ := hd
      by_cases hk : k2 = k
      · subst hk
        simp only [setA, if_pos rfl] at h
        rcases List.mem_cons.mp h with h1 | h1
        · exact Or.inl h1
        · exact Or.inr (List.mem_cons_of_mem _ h1)
      · simp only [setA, if_neg hk] at h
        rcases List.mem_cons.mp h with h1 | h1
        · exact Or.inr (h1 ▸ List.mem_cons_self _ _)
        · rcases ih h1 with h2 | h2
          · exact Or.inl h2
          · exact Or.inr (List.mem_cons_of_mem _ h2)

/-- `commit_purchases` keeps the Purchase Ledger invariant. -/
theorem commit_purchases_ledger :
    ∀ (ps : List (Nat × ℚ)) (m : ListingsMap)
      (pi : List (Nat × PurchasedIngredient)),
      ledger_ok pi →
      ∀ m2 pi2, commit_purchases ps m pi = .ok (m2, pi2) → ledger_ok pi2 := by
  intro ps
  induction ps with
  | nil =>
      intro m pi hpi m2 pi2 h
      simp only [commit_purchases, Except.ok.injEq, Prod.mk.injEq] at h
      exact h.2 ▸ hpi
  | cons hd rest ih =>
      obtain ⟨item_id, count⟩ := hd
      intro m pi hpi m2 pi2 h
      simp only [commit_purchases] at h
      cases hl : lookupA m item_id with
      | none => rw [hl] at h; simp at h
      | some entry =>
          rw [hl] at h
          simp only at h
          cases hbuy : (entry.buy (Int.toNat ⌈count⌉)).1 with
          | none => rw [hbuy] at h; simp at h
          | some cb =>
              obtain ⟨bp, bl⟩ := cb
              rw [hbuy] at h
              simp only at h
              have hsum : bp = listing_sum bl :=
                ItemListings.buy_cost_eq_sum entry _ bp bl hbuy
              cases hpl : lookupA pi item_id with
              | some p =>
                  rw [hpl] at h
                  refine ih _ _ ?_ _ _ h
                  intro e he
                  rcases mem_setA _ _ _ _ he with h1 | h1
                  · rw [h1]
                    exact PurchasedIngredient.buy_ok p count bp bl
                      (hpi (item_id, p) (lookupA_mem pi item_id p hpl)) hsum
                  · exact hpi e h1
              | none =>
                  rw [hpl] at h
                  refine ih _ _ ?_ _ _ h
                  intro e he
                  rcases List.mem_append.mp he with h1 | h1
                  · exact hpi e h1
                  · simp only [List.mem_singleton] at h1
                    rw [h1]
                    exact hsum

/-- The profit loop keeps the Purchase Ledger invariant. -/
theorem profit_loop_ledger (fuel : Nat) (rm : RecipesMap) (im : ItemsMap) :
    ∀ (loopBound : Nat) (listings : ItemListings) (lm : ListingsMap)
      (lp tcc pt cnt : Int) (tcs : ℚ) (pi : List (Nat × PurchasedIngredient)),
      ledger_ok pi →
      ∀ res l2 m2,
        calculate_crafting_profit_loop fuel rm im loopBound listings lm lp tcc
          pt cnt tcs pi = .ok (res, l2, m2) →
        ledger_ok res.purchased_ingredients := by
  intro loopBound
  induction loopBound with
  | zero =>
      intro listings lm lp tcc pt cnt tcs pi hpi res l2 m2 h
      simp [calculate_crafting_profit_loop] at h
  | succ loopBound ih =>
      intro listings lm lp tcc pt cnt tcs pi hpi res l2 m2 h
      rw [calculate_crafting_profit_loop] at h
      cases hres : calculate_precise_min_crafting_cost fuel listings.id rm im
          lm [] 0 with
      | error e => rw [hres] at h; simp at h
      | ok quad =>
          obtain ⟨ccopt, tp, cs, lm2⟩ := quad
          rw [hres] at h
          cases ccopt with
          | none => simp at h
          | some cc =>
              simp only at h
              cases hsell : listings.sell with
              | mk s1 l3 =>
                  rw [hsell] at h
                  cases s1 with
                  | none =>
                      simp only [Except.ok.injEq, Prod.mk.injEq] at h
                      rw [← h.1]
                      exact hpi
                  | some bp =>
                      simp only at h
                      by_cases hp : effective_buy_price bp - cc.cost > 0
                      · rw [if_pos hp] at h
                        cases hcommit : commit_purchases tp lm2 pi with
                        | error e => rw [hcommit] at h; simp at h
                        | ok pair =>
                            obtain ⟨lm3, pi2⟩ := pair
                            rw [hcommit] at h
                            simp only at h
                            exact ih _ _ _ _ _ _ _ _
                              (commit_purchases_ledger _ _ _ hpi _ _ hcommit)
                              res l2 m2 h
                      · rw [if_neg hp] at h
                        simp only [Except.ok.injEq, Prod.mk.injEq] at h
                        rw [← h.1]
                        exact hpi

/-- Claim C10: after any completed `calculate_crafting_profit` run, every
Purchase Ledger entry's `cost` equals the sum over its breakdown of unit
price times quantity; the invariant is established on entry creation from
`ItemListings.buy`'s returned pair and preserved by every
`PurchasedIngredient.buy` accumulation. -/
theorem crafting_profit_ledger_ok (fuel loopBound : Nat)
    (listings : ItemListings) (rm : RecipesMap) (im : ItemsMap)
    (lm : ListingsMap) (res : ProfitableItem) (l2 : ItemListings)
    (m2 : ListingsMap)
    (h : calculate_crafting_profit fuel loopBound listings rm im lm =
      .ok (res, l2, m2)) :
    ledger_ok res.purchased_ingredients :=
  profit_loop_ledger fuel rm im loopBound listings lm 0 0 0 0 0 []
    (by intro e he; simp at he) res l2 m2 h

/-- Witness for C10 at a concrete profitable run: one iteration of
B = 1 × C buys one C at 10, and the resulting ledger entry satisfies the
invariant. -/
theorem crafting_profit_ledger_ok_witness :
    ledger_ok [((2 : Nat),
      ⟨1, 10, [((10 : Int), (1 : Int))]⟩)] :=
  crafting_profit_ledger_ok 5 5 ⟨1, [⟨1, 100, 1⟩], []⟩
    [(1, ⟨10, 1, some 1, [⟨2, 1⟩]⟩)]
    [(1, ⟨1, "B", 0, []⟩), (2, ⟨2, "C", 0, []⟩)]
    [(1, ⟨1, [⟨1, 100, 1⟩], []⟩), (2, ⟨2, [], [⟨1, 10, 3⟩]⟩)]
    { id := 1, crafting_cost := 10, crafting_steps := 1, count := 1,
      profit := 75, profitability_threshold := 11, time_gated := false,
      needs_ascended := false,
      purchased_ingredients := [(2, ⟨1, 10, [(10, 1)]⟩)] }
    ⟨1, [], []⟩
    [(1, ⟨1, [⟨1, 100, 1⟩], []⟩), (2, ⟨2, [], [⟨1, 10, 2⟩]⟩)]
    (by with_unfolding_all rfl)

/-- Splitting a mapped sum at the last element. -/
theorem sum_map_dropLast (f : Listing → Int) :
    ∀ (l : List Listing) (a : Listing), l.getLast? = some a →
      (l.map f).sum = (l.dropLast.map f).sum + f a := by
  intro l
  induction l with
  | nil => intro a h; simp at h
  | cons x xs ih =>
      intro a h
      cases xs with
      | nil =>
          simp at h
          simp [h]
      | cons y ys =>
          have hlast : (y :: ys).getLast? = some a := h
          have := ih a hlast
          simp only [List.dropLast, List.map_cons, List.sum_cons]
          simp only [List.map_cons, List.sum_cons] at this ⊢
          omega

/-- A successful `sell` removes exactly one unit from the buy ladder. -/
theorem sell_some_quantity (l : ItemListings) (bp : Int) (l2 : ItemListings)
    (h : l.sell = (some bp, l2)) :
    totalBuyQuantity l2 = totalBuyQuantity l - 1 := by
  unfold ItemListings.sell at h
  cases hlast : l.buys.getLast? with
  | none => rw [hlast] at h; simp at h
  | some last =>
      rw [hlast] at h
      simp only [Prod.mk.injEq, Option.some.injEq] at h
      obtain ⟨hbp, hl2⟩ := h
      have hsum := sum_map_dropLast Listing.quantity l.buys last hlast
      rw [← hl2]
      simp only [totalBuyQuantity]
      split
      · rename_i hzz
        omega
      · simp only [List.map_append, List.sum_append, List.map_cons,
          List.sum_cons, List.map_nil, List.sum_nil]
        omega

/-- A successful `sell` keeps every remaining buy order's quantity positive. -/
theorem sell_some_valid (l : ItemListings) (bp : Int) (l2 : ItemListings)
    (hq : ∀ b ∈ l.buys, 1 ≤ b.quantity) (h : l.sell = (some bp, l2)) :
    ∀ b ∈ l2.buys, 1 ≤ b.quantity := by
  unfold ItemListings.sell at h
  cases hlast : l.buys.getLast? with
  | none => rw [hlast] at h; simp at h
  | some last =>
      rw [hlast] at h
      simp only [Prod.mk.injEq, Option.some.injEq] at h
      obtain ⟨hbp, hl2⟩ := h
      have hlq := hq last (List.mem_of_mem_getLast? hlast)
      intro b hb
      rw [← hl2] at hb
      simp only at hb
      by_cases hz : last.quantity - 1 = 0
      · rw [if_pos hz] at hb
        exact hq b (List.mem_of_mem_dropLast hb)
      · rw [if_neg hz] at hb
        rcases List.mem_append.mp hb with h1 | h1
        · exact hq b (List.mem_of_mem_dropLast h1)
        · simp only [List.mem_singleton] at h1
          rw [h1]
          simp only
          omega

/-- A valid buy ladder has non-negative total quantity. -/
theorem totalBuyQuantity_nonneg (l : ItemListings)
    (hq : ∀ b ∈ l.buys, 1 ≤ b.quantity) : 0 ≤ totalBuyQuantity l := by
  refine List.sum_nonneg ?_
  intro x hx
  rcases List.mem_map.mp hx with ⟨b, hb, hxb⟩
  have := hq b hb
  omega

/-- `commit_purchases` never fails with the loop-model's `loopLimit`. -/
theorem commit_purchases_ne_loopLimit :
    ∀ (ps : List (Nat × ℚ)) (m : ListingsMap)
      (pi : List (Nat × PurchasedIngredient)) (e : PyErr),
      commit_purchases ps m pi = .error e → e ≠ PyErr.loopLimit := by
  intro ps
  induction ps with
  | nil => intro m pi e h; simp [commit_purchases] at h
  | cons hd rest ih =>
      obtain ⟨item_id, count⟩ := hd
      intro m pi e h
      simp only [commit_purchases] at h
      cases hl : lookupA m item_id with
      | none =>
          rw [hl] at h
          simp only [Except.error.injEq] at h
          rw [← h]
          simp
      | some entry =>
          rw [hl] at h
          simp only at h
          cases hbuy : (entry.buy (Int.toNat ⌈count⌉)).1 with
          | none =>
              rw [hbuy] at h
              simp only [Except.error.injEq] at h
              rw [← h]
              simp
          | some cb =>
              obtain ⟨bp, bl⟩ := cb
              rw [hbuy] at h
              simp only at h
              cases hpl : lookupA pi item_id with
              | some p => rw [hpl] at h; exact ih _ _ _ h
              | none => rw [hpl] at h; exact ih _ _ _ h

/-- The profit loop's termination and iteration-count invariant: with a
valid buy ladder and a loop bound above the remaining total buy quantity,
the loop never exhausts its bound (the model's stand-in for
non-termination), and a completed run's `count` is bounded by the entry
count plus the remaining buy quantity. -/
theorem profit_loop_count (fuel : Nat) (rm : RecipesMap) (im : ItemsMap) :
    ∀ (loopBound : Nat) (listings : ItemListings) (lm : ListingsMap)
      (lp tcc pt cnt : Int) (tcs : ℚ) (pi : List (Nat × PurchasedIngredient)),
      (∀ b ∈ listings.buys, 1 ≤ b.quantity) →
      totalBuyQuantity listings < (loopBound : Int) →
      (calculate_crafting_profit_loop fuel rm im loopBound listings lm lp tcc
        pt cnt tcs pi ≠ .error .loopLimit) ∧
      (∀ res l2 m2,
        calculate_crafting_profit_loop fuel rm im loopBound listings lm lp tcc
          pt cnt tcs pi = .ok (res, l2, m2) →
        res.count ≤ cnt + totalBuyQuantity listings) := by
  intro loopBound
  induction loopBound with
  | zero =>
      intro listings lm lp tcc pt cnt tcs pi hq hb
      have := totalBuyQuantity_nonneg listings hq
      simp at hb
      omega
  | succ loopBound ih =>
      intro listings lm lp tcc pt cnt tcs pi hq hb
      have hpos := totalBuyQuantity_nonneg listings hq
      rw [calculate_crafting_profit_loop]
      cases hres : calculate_precise_min_crafting_cost fuel listings.id rm im
          lm [] 0 with
      | error e =>
          refine ⟨?_, by intro res l2 m2 hh; simp at hh⟩
          intro hcontra
          simp only [Except.error.injEq] at hcontra
          exact ((precise_frame fuel listings.id rm im lm [] 0).2 e hres).1
            hcontra
      | ok quad =>
          obtain ⟨ccopt, tp, cs, lm2⟩ := quad
          cases ccopt with
          | none => exact ⟨by simp, by intro res l2 m2 hh; simp at hh⟩
          | some cc =>
              simp only
              cases hsell : listings.sell with
              | mk s1 l3 =>
                  cases s1 with
                  | none =>
                      refine ⟨by simp, ?_⟩
                      intro res l2 m2 hh
                      simp only [Except.ok.injEq, Prod.mk.injEq] at hh
                      rw [← hh.1]
                      simp only
                      omega
                  | some bp =>
                      simp only
                      by_cases hp : effective_buy_price bp - cc.cost > 0
                      · rw [if_pos hp]
                        cases hcommit : commit_purchases tp lm2 pi with
                        | error e =>
                            refine ⟨?_, by intro res l2 m2 hh; simp at hh⟩
                            intro hcontra
                            simp only [Except.error.injEq] at hcontra
                            exact commit_purchases_ne_loopLimit _ _ _ e hcommit
                              hcontra
                        | ok pair =>
                            obtain ⟨lm3, pi2⟩ := pair
                            have hq3 := sell_some_valid listings bp l3 hq hsell
                            have hdec := sell_some_quantity listings bp l3 hsell
                            have hb3 : totalBuyQuantity l3 < (loopBound : Int) := by
                              push_cast at hb ⊢
                              omega
                            have hnext := ih l3 lm3 (lp + (effective_buy_price
                              bp - cc.cost)) (tcc + cc.cost)
                              (effective_sell_price cc.cost) (cnt + 1)
                              (tcs + cs) pi2 hq3 hb3
                            refine ⟨hnext.1, ?_⟩
                            intro res l2 m2 hh
                            have := hnext.2 res l2 m2 hh
                            omega
                      · rw [if_neg hp]
                        refine ⟨by simp, ?_⟩
                        intro res l2 m2 hh
                        simp only [Except.ok.injEq, Prod.mk.injEq] at hh
                        rw [← hh.1]
                        simp only
                        omega

/-- Claim C9: over any finite order book with a well-formed buy ladder, the
profit loop terminates — a loop bound exceeding the total buy quantity is
never exhausted, because each non-final iteration consumes one unit of the
buy ladder — and the number of committed iterations in the returned
`ProfitableItem.count` never exceeds the total quantity of buy orders for
the item.  (The `options.count` cap of the spec has no counterpart in this
version of the source: `calculate_crafting_profit` takes no options and
main.py passes `count=None`.) -/
theorem profit_loop_terminates (fuel loopBound : Nat) (listings : ItemListings)
    (rm : RecipesMap) (im : ItemsMap) (lm : ListingsMap)
    (hq : ∀ b ∈ listings.buys, 1 ≤ b.quantity)
    (hb : totalBuyQuantity listings < (loopBound : Int)) :
    (calculate_crafting_profit fuel loopBound listings rm im lm ≠
      .error .loopLimit) ∧
    (∀ res l2 m2,
      calculate_crafting_profit fuel loopBound listings rm im lm =
        .ok (res, l2, m2) →
      res.count ≤ totalBuyQuantity listings) := by
  have := profit_loop_count fuel rm im loopBound listings lm 0 0 0 0 0 [] hq hb
  refine ⟨this.1, ?_⟩
  intro res l2 m2 h
  have := this.2 res l2 m2 h
  omega

/-- Witness for C9: the one-iteration profitable run of C10's scenario, with
a single buy order; the run completes and its count 1 is within the total
buy quantity 1. -/
theorem profit_loop_terminates_witness :
    (calculate_crafting_profit 5 5 ⟨1, [⟨1, 100, 1⟩], []⟩
      [(1, ⟨10, 1, some 1, [⟨2, 1⟩]⟩)]
      [(1, ⟨1, "B", 0, []⟩), (2, ⟨2, "C", 0, []⟩)]
      [(1, ⟨1, [⟨1, 100, 1⟩], []⟩), (2, ⟨2, [], [⟨1, 10, 3⟩]⟩)] ≠
      .error .loopLimit) := by
  have h := profit_loop_terminates 5 5 ⟨1, [⟨1, 100, 1⟩], []⟩
    [(1, ⟨10, 1, some 1, [⟨2, 1⟩]⟩)]
    [(1, ⟨1, "B", 0, []⟩), (2, ⟨2, "C", 0, []⟩)]
    [(1, ⟨1, [⟨1, 100, 1⟩], []⟩), (2, ⟨2, [], [⟨1, 10, 3⟩]⟩)]
    (by decide) (by decide)
  exact h.1

/-- A successful `buyGo` lowers the ladder's total quantity by exactly the
number of units bought. -/
theorem buyGo_sum :
    ∀ (n : Nat) (rev : List Listing) (cost : Int) (bd : Breakdown)
      (c : Int) (b : Breakdown) (rev2 : List Listing),
      buyGo n rev cost bd = (some (c, b), rev2) →
      (rev2.map Listing.quantity).sum = (rev.map Listing.quantity).sum - n := by
  intro n
  induction n with
  | zero =>
      intro rev cost bd c b rev2 h
      simp only [buyGo, Prod.mk.injEq, Option.some.injEq] at h
      rw [← h.2]
      simp
  | succ n ih =>
      intro rev cost bd c b rev2 h
      cases rev with
      | nil => simp [buyGo] at h
      | cons l rest =>
          simp only [buyGo] at h
          split at h
          · rename_i hz
            have := ih _ _ _ _ _ _ h
            simp only [List.map_cons, List.sum_cons]
            push_cast
            omega
          · rename_i hz
            have := ih _ _ _ _ _ _ h
            simp only [List.map_cons, List.sum_cons] at this ⊢
            push_cast at this ⊢
            omega

/-- A successful `buyGo` over a well-formed ladder consumes exactly the `n`
cheapest units: the remaining flattened ladder is the `n`-th tail of the
original one, and well-formedness is preserved. -/
theorem buyGo_expansion :
    ∀ (n : Nat) (rev : List Listing) (cost : Int) (bd : Breakdown)
      (c : Int) (b : Breakdown) (rev2 : List Listing),
      (∀ s ∈ rev, 1 ≤ s.quantity) →
      buyGo n rev cost bd = (some (c, b), rev2) →
      unit_price_expansion rev2 = (unit_price_expansion rev).drop n ∧
      (∀ s ∈ rev2, 1 ≤ s.quantity) := by
  intro n
  induction n with
  | zero =>
      intro rev cost bd c b rev2 hq h
      simp only [buyGo, Prod.mk.injEq, Option.some.injEq] at h
      rw [← h.2]
      exact ⟨by simp, hq⟩
  | succ n ih =>
      intro rev cost bd c b rev2 hq h
      cases rev with
      | nil => simp [buyGo] at h
      | cons l rest =>
          have hql := hq l (List.mem_cons_self _ _)
          simp only [buyGo] at h
          split at h
          · rename_i hz
            have hrest : ∀ s ∈ rest, 1 ≤ s.quantity :=
              fun s hs => hq s (List.mem_cons_of_mem _ hs)
            have hih := ih _ _ _ _ _ _ hrest h
            refine ⟨?_, hih.2⟩
            rw [hih.1]
            have hq1 : l.quantity.toNat = 1 := by omega
            simp only [unit_price_expansion, hq1, List.replicate_succ,
              List.replicate_zero, List.nil_append, List.cons_append,
              List.drop_succ_cons]
          · rename_i hz
            have hrest : ∀ s ∈ ({ l with quantity := l.quantity - 1 } :: rest :
                List Listing), 1 ≤ s.quantity := by
              intro s hs
              rcases List.mem_cons.mp hs with h1 | h1
              · rw [h1]
                simp only
                omega
              · exact hq s (List.mem_cons_of_mem _ h1)
            have hih := ih _ _ _ _ _ _ hrest h
            refine ⟨?_, hih.2⟩
            rw [hih.1]
            have hk : l.quantity.toNat = (l.quantity - 1).toNat + 1 := by omega
            simp only [unit_price_expansion]
            rw [hk, List.replicate_succ]
            simp only [List.cons_append, List.drop_succ_cons]

/-- Every price in the flattened ladder is the price of one of its levels. -/
theorem mem_unit_price_expansion :
    ∀ (rev : List Listing) (x : Int), x ∈ unit_price_expansion rev →
      ∃ s ∈ rev, x = s.unit_price := by
  intro rev
  induction rev with
  | nil => intro x h; simp [unit_price_expansion] at h
  | cons l rest ih =>
      intro x h
      simp only [unit_price_expansion] at h
      rcases List.mem_append.mp h with h1 | h1
      · exact ⟨l, List.mem_cons_self _ _, List.eq_of_mem_replicate h1⟩
      · obtain ⟨s, hs, hx⟩ := ih x h1
        exact ⟨s, List.mem_cons_of_mem _ hs, hx⟩

/-- Flattening an ascending ladder yields an ascending price list. -/
theorem unit_price_expansion_sorted :
    ∀ (rev : List Listing),
      List.Pairwise (fun a b => a.unit_price ≤ b.unit_price) rev →
      List.Pairwise (fun a b => a ≤ b) (unit_price_expansion rev) := by
  intro rev
  induction rev with
  | nil => intro h; simp [unit_price_expansion]
  | cons l rest ih =>
      intro h
      rcases List.pairwise_cons.mp h with ⟨hhead, htail⟩
      simp only [unit_price_expansion]
      rw [List.pairwise_append]
      refine ⟨?_, ih htail, ?_⟩
      · exact List.pairwise_replicate.mpr (Or.inr le_rfl)
      · intro a ha b hb
        rw [List.eq_of_mem_replicate ha]
        obtain ⟨s, hs, hbx⟩ := mem_unit_price_expansion rest b hb
        rw [hbx]
        exact hhead s hs

/-- On a well-formed ladder, `lowest_sell_offer(1)` quotes exactly the price
of the cheapest listed unit. -/
theorem lso_one_head (rev : List Listing) (hq : ∀ s ∈ rev, 1 ≤ s.quantity) :
    lowestSellOfferGo rev 1 0 = (unit_price_expansion rev)[0]? := by
  cases rev with
  | nil => simp [lowestSellOfferGo, unit_price_expansion]
  | cons l rest =>
      have hql := hq l (List.mem_cons_self _ _)
      have hnotlt : ¬ l.quantity < 1 := by omega
      simp only [lowestSellOfferGo, if_neg hnotlt]
      have hk : l.quantity.toNat = (l.quantity - 1).toNat + 1 := by omega
      simp only [unit_price_expansion]
      rw [hk, List.replicate_succ]
      simp only [List.cons_append, List.getElem?_cons_zero,
        Option.some.injEq]
      ring

/-- Claim C8: for a well-formed, descending-sorted sell ladder, a successful
`buy(n)` (n > 0) lowers the ladder's total listed quantity by exactly `n`,
and any subsequent `lowest_sell_offer(1)` quote is at least the price that
the `n`-th cheapest unit had before the buy. -/
theorem buy_monotonic_exhaustion (l : ItemListings) (n : Nat) (hn : 0 < n)
    (hq : ∀ s ∈ l.sells, 1 ≤ s.quantity)
    (hs : List.Pairwise (fun a b => b.unit_price ≤ a.unit_price) l.sells)
    (c : Int) (b : Breakdown) (l2 : ItemListings)
    (hbuy : l.buy n = (some (c, b), l2)) :
    sell_ladder_quantity l2 = sell_ladder_quantity l - n ∧
    (∀ p, (l2.lowest_sell_offer 1).1 = some p →
      ∀ q, nth_cheapest_price l n = some q → q ≤ p) := by
  unfold ItemListings.buy at hbuy
  simp only at hbuy
  cases hgo : buyGo n l.sells.reverse 0 [] with
  | mk ores rev2 =>
      rw [hgo] at hbuy
      simp only [Prod.mk.injEq] at hbuy
      obtain ⟨hores, hl2⟩ := hbuy
      rw [hores] at hgo
      have hvalidrev : ∀ s ∈ l.sells.reverse, 1 ≤ s.quantity :=
        fun s hsm => hq s (List.mem_reverse.mp hsm)
      constructor
      · have hsum := buyGo_sum n l.sells.reverse 0 [] c b rev2 hgo
        rw [← hl2]
        simp only [sell_ladder_quantity]
        rw [List.map_reverse, List.sum_reverse] at hsum
        rw [List.map_reverse, List.sum_reverse]
        exact hsum
      · intro p hp q hq2
        have hexp := buyGo_expansion n l.sells.reverse 0 [] c b rev2
          hvalidrev hgo
        rw [← hl2] at hp
        simp only [ItemListings.lowest_sell_offer] at hp
        rw [List.reverse_reverse] at hp
        rw [lso_one_head rev2 hexp.2] at hp
        rw [hexp.1] at hp
        rw [List.getElem?_drop] at hp
        unfold nth_cheapest_price at hq2
        have hsorted : List.Pairwise (fun a b => a ≤ b)
            (unit_price_expansion l.sells.reverse) := by
          refine unit_price_expansion_sorted _ ?_
          rw [List.pairwise_reverse]
          exact hs
        rcases List.getElem?_eq_some_iff.mp hp with ⟨hplt, hpe⟩
        rcases List.getElem?_eq_some_iff.mp hq2 with ⟨hqlt, hqe⟩
        have hij : n - 1 < n + 0 := by omega
        have := List.pairwise_iff_getElem.mp hsorted (n - 1) (n + 0) hqlt
          hplt hij
        rw [hpe, hqe] at this
        exact this

/-- Witness for C8 at a concrete ladder: buying 2 units from
`[20 × 1, 10 × 2]` (cheapest last) consumes both 10s; the total drops from 3
to 1 and the next quote, 20, is at least the old 2nd-cheapest price, 10. -/
theorem buy_monotonic_exhaustion_witness :
    sell_ladder_quantity ⟨1, [], [⟨1, 20, 1⟩]⟩ =
      sell_ladder_quantity ⟨1, [], [⟨1, 20, 1⟩, ⟨1, 10, 2⟩]⟩ - 2 ∧
    (10 : Int) ≤ 20 := by
  have h := buy_monotonic_exhaustion ⟨1, [], [⟨1, 20, 1⟩, ⟨1, 10, 2⟩]⟩ 2
    (by decide) (by decide) (by decide) 20 [(10, 2)] ⟨1, [], [⟨1, 20, 1⟩]⟩
    (by rfl)
  exact ⟨h.1, h.2 20 (by rfl) 10 (by rfl)⟩

end Arbitrageur
